import Mathlib

/-!
Verification of the in-memory banking ledger (`src/banking_system_impl.cpp`,
`src/banking_system_impl.hpp`).

The state of `BankingSystemImpl` is embedded as the structure `Bank`:
`std::unordered_map` fields become association lists with first-match lookup,
the ordered `std::map<int, std::vector<std::string>>` scheduling queue becomes
a list of `(dueTimestamp, paymentIds)` buckets kept in ascending key order,
and C++ `int` becomes `Int` (all arithmetic in the source stays far from the
32-bit boundary in the regimes the claims quantify over).

Each public member function of the C++ class becomes a Lean function from the
pre-state to a `result × post-state` pair; `processDuePayments` (the preamble
drain every operation runs first) is translated as a structural recursion over
the bucket list, mirroring the source's `while (it->first <= timestamp)` loop
that erases each due bucket before processing its payment ids in order.
-/

/-- First-match lookup in an association list (`std::unordered_map::find`). -/
def lookupA {κ α : Type} [DecidableEq κ] : List (κ × α) → κ → Option α
  | [], _ => none
  | (k', v) :: rest, k => if k' = k then some v else lookupA rest k

/-- Replace the first binding of `k` (or append one): `map[k] = v`. -/
def setA {κ α : Type} [DecidableEq κ] : List (κ × α) → κ → α → List (κ × α)
  | [], k, v => [(k, v)]
  | (k', v') :: rest, k, v =>
    if k' = k then (k, v) :: rest else (k', v') :: setA rest k v

/-- Remove the first binding of `k` (`std::unordered_map::erase`). -/
def eraseA {κ α : Type} [DecidableEq κ] : List (κ × α) → κ → List (κ × α)
  | [], _ => []
  | (k', v') :: rest, k =>
    if k' = k then rest else (k', v') :: eraseA rest k

/-- `emplace`: insert only when the key is not yet bound. -/
def emplaceA {κ α : Type} [DecidableEq κ] (m : List (κ × α)) (k : κ) (v : α) :
    List (κ × α) :=
  match lookupA m k with
  | some _ => m
  | none => m ++ [(k, v)]

/-- `PaymentInfo` from `banking_system_impl.hpp`. -/
structure PaymentInfo where
  accountId : String
  amount : Int
  dueTimestamp : Int
  canceled : Bool
  processed : Bool
  creationOrder : Int
deriving DecidableEq

/-- The private state of `BankingSystemImpl`. -/
structure Bank where
  accountBalances : List (String × Int)
  accountOutgoing : List (String × Int)
  nextPaymentOrdinal : Int
  paymentById : List (String × PaymentInfo)
  dueTimeToPaymentIds : List (Int × List String)
  balanceEvents : List (String × List (Int × Int))
  mergedInto : List (String × (String × Int))
  accountCreationTime : List (String × Int)
  creationTimes : List (String × List Int)
  deletionTimes : List (String × List Int)
deriving DecidableEq

/-- A default-constructed `BankingSystemImpl`. -/
def Bank.init : Bank :=
  ⟨[], [], 1, [], [], [], [], [], [], []⟩

/-- Balance-event history of one account (`balanceEvents_[id]`, defaulting to
an empty vector as `operator[]` does). -/
def eventsOf (s : Bank) (id : String) : List (Int × Int) :=
  (lookupA s.balanceEvents id).getD []

/-- Append a balance event, default-constructing the vector when absent
(`balanceEvents_[id].emplace_back(ts, delta)`). -/
def pushEvent (s : Bank) (id : String) (ts delta : Int) : Bank :=
  { s with balanceEvents := setA s.balanceEvents id (eventsOf s id ++ [(ts, delta)]) }

/-- The body of the `for (const std::string& paymentId : ...)` loop in
`processDuePayments` for a single payment id: look the payment up, skip when
missing or canceled, skip when the owner is missing from `accountBalances_`,
debit when funded, and mark `processed` in the funded and underfunded paths. -/
def processPayment (s : Bank) (paymentId : String) : Bank :=
  match lookupA s.paymentById paymentId with
  | none => s
  | some info =>
    if info.canceled then s
    else
      match lookupA s.accountBalances info.accountId with
      | none => s
      | some bal =>
        let s1 :=
          if info.amount ≤ bal then
            let balances' := setA s.accountBalances info.accountId (bal - info.amount)
            let s' := { s with accountBalances := balances' }
            let s' := pushEvent s' info.accountId info.dueTimestamp (-info.amount)
            let outgoing' := setA s'.accountOutgoing info.accountId ((lookupA s'.accountOutgoing info.accountId).getD 0 + info.amount)
            { s' with accountOutgoing := outgoing' }
          else s
        { s1 with paymentById := setA s1.paymentById paymentId { info with processed := true } }

/-- Process the ids of one erased bucket in order. -/
def processBucket (s : Bank) (ids : List String) : Bank :=
  ids.foldl processPayment s

/-- The `while (it != end && it->first <= timestamp)` loop: `q` is the bucket
list still to visit; on exit the remaining buckets become the new queue. -/
def drainLoop (timestamp : Int) : List (Int × List String) → Bank → Bank
  | [], s => { s with dueTimeToPaymentIds := [] }
  | (due, ids) :: rest, s =>
    if due ≤ timestamp then drainLoop timestamp rest (processBucket s ids)
    else { s with dueTimeToPaymentIds := (due, ids) :: rest }

/-- `BankingSystemImpl::processDuePayments`. -/
def processDuePayments (timestamp : Int) (s : Bank) : Bank :=
  drainLoop timestamp s.dueTimeToPaymentIds s

/-- `BankingSystemImpl::CreateAccount`. -/
def CreateAccount (timestamp : Int) (account_id : String) (s0 : Bank) :
    Bool × Bank :=
  let s := processDuePayments timestamp s0
  match lookupA s.accountBalances account_id with
  | some _ => (false, s)
  | none =>
    let s := { s with accountBalances := setA s.accountBalances account_id 0 }
    let ct' := setA s.creationTimes account_id ((lookupA s.creationTimes account_id).getD [] ++ [timestamp])
    let s := { s with creationTimes := ct' }
    let act' := setA s.accountCreationTime account_id ((lookupA s.accountCreationTime account_id).getD timestamp)
    let s := { s with accountCreationTime := act' }
    let s := pushEvent s account_id timestamp 0
    let s := { s with mergedInto := eraseA s.mergedInto account_id }
    (true, s)

/-- `BankingSystemImpl::Deposit`. -/
def Deposit (timestamp : Int) (account_id : String) (amount : Int) (s0 : Bank) :
    Option Int × Bank :=
  let s := processDuePayments timestamp s0
  match lookupA s.accountBalances account_id with
  | none => (none, s)
  | some bal =>
    let s := { s with accountBalances := setA s.accountBalances account_id (bal + amount) }
    let s := pushEvent s account_id timestamp amount
    (some (bal + amount), s)

/-- `BankingSystemImpl::Transfer`. -/
def Transfer (timestamp : Int) (source_account_id target_account_id : String)
    (amount : Int) (s0 : Bank) : Option Int × Bank :=
  let s := processDuePayments timestamp s0
  if source_account_id = target_account_id then (none, s)
  else
    match lookupA s.accountBalances source_account_id,
          lookupA s.accountBalances target_account_id with
    | some balSrc, some balTgt =>
      if balSrc < amount then (none, s)
      else
        let s := { s with accountBalances := setA s.accountBalances source_account_id (balSrc - amount) }
        let s := { s with accountBalances := setA s.accountBalances target_account_id (balTgt + amount) }
        let s := pushEvent s source_account_id timestamp (-amount)
        let s := pushEvent s target_account_id timestamp amount
        let out' := setA s.accountOutgoing source_account_id ((lookupA s.accountOutgoing source_account_id).getD 0 + amount)
        let s := { s with accountOutgoing := out' }
        (some (balSrc - amount), s)
    | _, _ => (none, s)

/-- The payment-id string `"payment" + std::to_string(ordinal)`. -/
def payName (ordinal : Int) : String :=
  "payment" ++ toString ordinal

/-- Sorted insertion into the due-time queue:
`dueTimeToPaymentIds_[dueTime].push_back(paymentId)` on a `std::map`. -/
def enqueuePayment : List (Int × List String) → Int → String → List (Int × List String)
  | [], due, pid => [(due, [pid])]
  | (d, ids) :: rest, due, pid =>
    if due < d then (due, [pid]) :: (d, ids) :: rest
    else if due = d then (d, ids ++ [pid]) :: rest
    else (d, ids) :: enqueuePayment rest due pid

/-- `BankingSystemImpl::SchedulePayment`. -/
def SchedulePayment (timestamp : Int) (account_id : String) (amount delay : Int)
    (s0 : Bank) : Option String × Bank :=
  let s := processDuePayments timestamp s0
  match lookupA s.accountBalances account_id with
  | none => (none, s)
  | some _ =>
    let dueTime := timestamp + delay
    let ordinal := s.nextPaymentOrdinal
    let paymentId := payName ordinal
    let info : PaymentInfo := ⟨account_id, amount, dueTime, false, false, ordinal⟩
    let s := { s with nextPaymentOrdinal := s.nextPaymentOrdinal + 1 }
    let s := { s with paymentById := emplaceA s.paymentById paymentId info }
    let s := { s with dueTimeToPaymentIds := enqueuePayment s.dueTimeToPaymentIds dueTime paymentId }
    (some paymentId, s)

/-- `BankingSystemImpl::CancelPayment`. -/
def CancelPayment (timestamp : Int) (account_id payment_id : String) (s0 : Bank) :
    Bool × Bank :=
  let s := processDuePayments timestamp s0
  match lookupA s.paymentById payment_id with
  | none => (false, s)
  | some info =>
    if info.canceled then (false, s)
    else if info.processed then (false, s)
    else if info.accountId ≠ account_id then (false, s)
    else
      (true, { s with paymentById := setA s.paymentById payment_id { info with canceled := true } })

/-- `BankingSystemImpl::MergeAccounts`. -/
def MergeAccounts (timestamp : Int) (account_id_1 account_id_2 : String)
    (s0 : Bank) : Bool × Bank :=
  let s := processDuePayments timestamp s0
  if account_id_1 = account_id_2 then (false, s)
  else
    match lookupA s.accountBalances account_id_1,
          lookupA s.accountBalances account_id_2 with
    | some bal1, some bal2 =>
      let s := { s with accountBalances := setA s.accountBalances account_id_1 (bal1 + bal2) }
      let s := pushEvent s account_id_1 timestamp bal2
      let s := pushEvent s account_id_2 timestamp (-bal2)
      let s := { s with accountBalances := setA s.accountBalances account_id_2 0 }
      let out' := setA s.accountOutgoing account_id_1 (((lookupA s.accountOutgoing account_id_1).getD 0 : Int) + (lookupA s.accountOutgoing account_id_2).getD 0)
      let s := { s with accountOutgoing := out' }
      let s := { s with accountOutgoing := eraseA s.accountOutgoing account_id_2 }
      let rehome := fun (kv : String × PaymentInfo) =>
        if kv.2.processed = false ∧ kv.2.canceled = false ∧ kv.2.accountId = account_id_2 then
          (kv.1, { kv.2 with accountId := account_id_1 })
        else kv
      let s := { s with paymentById := s.paymentById.map rehome }
      let s := { s with mergedInto := setA s.mergedInto account_id_2 (account_id_1, timestamp) }
      let s := { s with accountBalances := eraseA s.accountBalances account_id_2 }
      (true, s)
    | _, _ => (false, s)

/-- The summation loop of `GetBalance`: add every delta with `ts ≤ time_at`. -/
def sumEventsUpTo (events : List (Int × Int)) (time_at : Int) : Int :=
  events.foldl (fun acc e => if e.1 ≤ time_at then acc + e.2 else acc) 0

/-- The pure lookup part of `BankingSystemImpl::GetBalance` on the state after
the preamble drain.  (The source also computes `rootAtTime(account_id,
time_at)` into a local `owner`, but never uses that local; the returned value
depends only on the checks and the sum below.) -/
def getBalanceIn (s : Bank) (account_id : String) (time_at : Int) : Option Int :=
  match lookupA s.mergedInto account_id with
  | some pr =>
    if pr.2 < time_at then none
    else
      match lookupA s.accountCreationTime account_id with
      | none => none
      | some created =>
        if time_at < created then none
        else some (sumEventsUpTo (eventsOf s account_id) time_at)
  | none =>
    match lookupA s.accountCreationTime account_id with
    | none => none
    | some created =>
      if time_at < created then none
      else some (sumEventsUpTo (eventsOf s account_id) time_at)

/-- `BankingSystemImpl::GetBalance`. -/
def GetBalance (timestamp : Int) (account_id : String) (time_at : Int)
    (s0 : Bank) : Option Int × Bank :=
  let s := processDuePayments timestamp s0
  (getBalanceIn s account_id time_at, s)

/-! ## Operation traces

Claims that quantify over "every reachable state" or "every sequence of
operations" are stated over traces: lists of operations applied from a
default-constructed `Bank.init`.  `TopSpenders` is a pure read modulo the
preamble drain that every other operation also performs, so the trace
alphabet below (with `getBalance` covering the drain-at-`ts` read) reaches
every state the full API reaches. -/

/-- One API call with its arguments. -/
inductive Op where
  | create (ts : Int) (id : String)
  | deposit (ts : Int) (id : String) (amount : Int)
  | transfer (ts : Int) (src dst : String) (amount : Int)
  | schedule (ts : Int) (id : String) (amount delay : Int)
  | cancel (ts : Int) (id pid : String)
  | merge (ts : Int) (a b : String)
  | getBalance (ts : Int) (id : String) (t_at : Int)
deriving DecidableEq

/-- The timestamp argument of an operation. -/
def Op.ts : Op → Int
  | .create t _ => t
  | .deposit t _ _ => t
  | .transfer t _ _ _ => t
  | .schedule t _ _ _ => t
  | .cancel t _ _ => t
  | .merge t _ _ => t
  | .getBalance t _ _ => t

/-- Apply one operation, discarding its result. -/
def applyOp (s : Bank) : Op → Bank
  | .create t id => (CreateAccount t id s).2
  | .deposit t id a => (Deposit t id a s).2
  | .transfer t src dst a => (Transfer t src dst a s).2
  | .schedule t id a d => (SchedulePayment t id a d s).2
  | .cancel t id pid => (CancelPayment t id pid s).2
  | .merge t a b => (MergeAccounts t a b s).2
  | .getBalance t id tAt => (GetBalance t id tAt s).2

/-- Run a trace from a given state. -/
def runFrom (s : Bank) (ops : List Op) : Bank :=
  ops.foldl applyOp s

/-- Run a trace from a default-constructed system. -/
def runOps (ops : List Op) : Bank :=
  runFrom Bank.init ops

/-! ## Spec-side lifetimes

The spec's data model (§3) gives each account id an ordered sequence of
lifetimes `(created_ts, closed_ts?)`: a successful `CreateAccount` opens one
and a successful `MergeAccounts` closes the child's open one at the merge
timestamp.  The code does not store this sequence (its `deletionTimes_`
member is never written), so for the refinement claims about `GetBalance`
the lifetimes are computed alongside the run, from the spec's words. -/

/-- Close the last (open) lifetime of the list at time `m`. -/
def closeLast : List (Int × Option Int) → Int → List (Int × Option Int)
  | [], _ => []
  | [(c, _)], m => [(c, some m)]
  | e :: rest, m => e :: closeLast rest m

/-- Modelled from the spec: the per-id lifetime table, advanced one operation
at a time in lockstep with the implementation state. -/
def lifeStep (sl : Bank × List (String × List (Int × Option Int))) (op : Op) :
    Bank × List (String × List (Int × Option Int)) :=
  match op with
  | .create t id =>
    let r := CreateAccount t id sl.1
    if r.1 then
      (r.2, setA sl.2 id ((lookupA sl.2 id).getD [] ++ [(t, none)]))
    else (r.2, sl.2)
  | .merge t a b =>
    let r := MergeAccounts t a b sl.1
    if r.1 then
      (r.2, setA sl.2 b (closeLast ((lookupA sl.2 b).getD []) t))
    else (r.2, sl.2)
  | op => (applyOp sl.1 op, sl.2)

/-- Modelled from the spec: the lifetimes of every id after running `ops`. -/
def specLifetimes (ops : List Op) : List (String × List (Int × Option Int)) :=
  (ops.foldl lifeStep (Bank.init, [])).2

/-- The lifetime of `id` whose `created_ts` is the greatest one `≤ t_at`
(lifetimes are listed in creation order, which is ascending in a
monotone-timestamp trace). -/
def coveringLifetime (lts : List (Int × Option Int)) (t_at : Int) :
    Option (Int × Option Int) :=
  lts.foldl (fun acc e => if e.1 ≤ t_at then some e else acc) none

/-- Modelled from the spec: the `GetBalance` answer of §4.1/§4.3 — `none`
when no lifetime covers `t_at` (no creation at or before `t_at`, or the
chosen lifetime was closed by a merge strictly before `t_at`), else the sum
of the deltas that lie inside the chosen lifetime with event time `≤ t_at`. -/
def specBalanceAt (lts : List (Int × Option Int)) (events : List (Int × Int))
    (t_at : Int) : Option Int :=
  match coveringLifetime lts t_at with
  | none => none
  | some (c, cl) =>
    match cl with
    | some m =>
      if m < t_at then none
      else some (sumEventsUpTo (events.filter (fun e => c ≤ e.1)) t_at)
    | none => some (sumEventsUpTo (events.filter (fun e => c ≤ e.1)) t_at)

/-! ## Association-list lemmas -/

theorem lookupA_setA_self {κ α : Type} [DecidableEq κ] (m : List (κ × α)) (k : κ) (v : α) :
    lookupA (setA m k v) k = some v := by
  induction m with
  | nil => simp [setA, lookupA]
  | cons p rest ih =>
    by_cases hk : p.1 = k
    · simp [setA, hk, lookupA]
    · simpa [setA, hk, lookupA] using ih

theorem lookupA_setA_ne {κ α : Type} [DecidableEq κ] (m : List (κ × α)) (k j : κ) (v : α)
    (h : j ≠ k) : lookupA (setA m k v) j = lookupA m j := by
  have h' : ¬ k = j := fun he => h he.symm
  induction m with
  | nil => simp [setA, lookupA, h']
  | cons p rest ih =>
    by_cases hk : p.1 = k
    · simp [setA, hk, lookupA, h']
    · by_cases hj : p.1 = j <;> simp [setA, hk, lookupA, hj, ih, h]

theorem lookupA_eraseA_ne {κ α : Type} [DecidableEq κ] (m : List (κ × α)) (k j : κ)
    (h : j ≠ k) : lookupA (eraseA m k) j = lookupA m j := by
  have h' : ¬ k = j := fun he => h he.symm
  induction m with
  | nil => simp [eraseA]
  | cons p rest ih =>
    by_cases hk : p.1 = k
    · simp [eraseA, hk, lookupA, h']
    · by_cases hj : p.1 = j <;> simp [eraseA, hk, lookupA, hj, ih, h]

theorem lookupA_eq_none_of_not_mem_keys {κ α : Type} [DecidableEq κ]
    (m : List (κ × α)) (k : κ) (h : k ∉ m.map Prod.fst) : lookupA m k = none := by
  induction m with
  | nil => rfl
  | cons p rest ih =>
    simp only [List.map_cons, List.mem_cons] at h
    push_neg at h
    have h1 : ¬ p.1 = k := fun he => h.1 he.symm
    simpa [lookupA, h1] using ih h.2

theorem lookupA_mem {κ α : Type} [DecidableEq κ] {m : List (κ × α)} {k : κ} {v : α}
    (h : lookupA m k = some v) : (k, v) ∈ m := by
  induction m with
  | nil => simp [lookupA] at h
  | cons p rest ih =>
    obtain ⟨k1, v1⟩ := p
    by_cases hk : k1 = k
    · subst hk
      have hv : v1 = v := by simpa [lookupA] using h
      subst hv
      exact List.mem_cons_self _ _
    · have h' : lookupA rest k = some v := by simpa [lookupA, hk] using h
      exact List.mem_cons_of_mem _ (ih h')

theorem mem_setA {κ α : Type} [DecidableEq κ] {m : List (κ × α)} {k : κ} {v : α}
    {p : κ × α} (h : p ∈ setA m k v) : p = (k, v) ∨ p ∈ m := by
  induction m with
  | nil => simpa [setA] using h
  | cons q rest ih =>
    by_cases hk : q.1 = k
    · rcases (by simpa [setA, hk] using h : p = (k, v) ∨ p ∈ rest) with h1 | h1
      · exact Or.inl h1
      · exact Or.inr (List.mem_cons_of_mem _ h1)
    · rcases (by simpa [setA, hk] using h : p = q ∨ p ∈ setA rest k v) with h1 | h1
      · exact Or.inr (h1 ▸ List.mem_cons_self q rest)
      · rcases ih h1 with h2 | h2
        · exact Or.inl h2
        · exact Or.inr (List.mem_cons_of_mem _ h2)

theorem mem_eraseA {κ α : Type} [DecidableEq κ] {m : List (κ × α)} {k : κ}
    {p : κ × α} (h : p ∈ eraseA m k) : p ∈ m := by
  induction m with
  | nil => simp [eraseA] at h
  | cons q rest ih =>
    by_cases hk : q.1 = k
    · exact List.mem_cons_of_mem _ (by simpa [eraseA, hk] using h)
    · rcases (by simpa [eraseA, hk] using h : p = q ∨ p ∈ eraseA rest k) with h1 | h1
      · exact h1 ▸ List.mem_cons_self q rest
      · exact List.mem_cons_of_mem _ (ih h1)

theorem keys_setA_of_lookup {κ α : Type} [DecidableEq κ] (m : List (κ × α)) (k : κ)
    (v w : α) (h : lookupA m k = some w) :
    (setA m k v).map Prod.fst = m.map Prod.fst := by
  induction m with
  | nil => simp [lookupA] at h
  | cons p rest ih =>
    by_cases hk : p.1 = k
    · simp [setA, hk]
    · simp only [lookupA, hk, if_neg, not_false_iff] at h
      simp [setA, hk, ih h]

theorem lookupA_eraseA_self_of_nodup {κ α : Type} [DecidableEq κ] (m : List (κ × α))
    (k : κ) (hnd : (m.map Prod.fst).Nodup) : lookupA (eraseA m k) k = none := by
  induction m with
  | nil => rfl
  | cons p rest ih =>
    simp only [List.map_cons, List.nodup_cons] at hnd
    by_cases hk : p.1 = k
    · rw [show eraseA (p :: rest) k = rest from by simp [eraseA, hk]]
      exact lookupA_eq_none_of_not_mem_keys rest k (hk ▸ hnd.1)
    · rw [show eraseA (p :: rest) k = p :: eraseA rest k from by simp [eraseA, hk]]
      simpa [lookupA, hk] using ih hnd.2

/-! ## Sum-of-balances lemmas (for merge conservation) -/

/-- Sum of all stored balances. -/
def sumBal (s : Bank) : Int :=
  (s.accountBalances.map Prod.snd).sum

theorem sumSnd_setA (m : List (String × Int)) (k : String) (v b : Int)
    (h : lookupA m k = some b) :
    ((setA m k v).map Prod.snd).sum = (m.map Prod.snd).sum - b + v := by
  induction m with
  | nil => simp [lookupA] at h
  | cons p rest ih =>
    by_cases hk : p.1 = k
    · simp only [lookupA, hk, if_pos, Option.some.injEq] at h
      subst h
      simp [setA, hk]
      ring
    · simp only [lookupA, hk, if_neg, not_false_iff] at h
      simp [setA, hk, ih h]
      ring

theorem sumSnd_eraseA (m : List (String × Int)) (k : String) (b : Int)
    (h : lookupA m k = some b) :
    ((eraseA m k).map Prod.snd).sum = (m.map Prod.snd).sum - b := by
  induction m with
  | nil => simp [lookupA] at h
  | cons p rest ih =>
    by_cases hk : p.1 = k
    · simp only [lookupA, hk, if_pos, Option.some.injEq] at h
      subst h
      simp [eraseA, hk]
    · simp only [lookupA, hk, if_neg, not_false_iff] at h
      simp [eraseA, hk, ih h]
      ring

/-! ## Shape of the queue after a drain -/

theorem Bank.set_queue_self (s : Bank) :
    { s with dueTimeToPaymentIds := s.dueTimeToPaymentIds } = s := rfl

theorem drainLoop_queue_cases (t : Int) (q : List (Int × List String)) :
    ∀ s : Bank, (drainLoop t q s).dueTimeToPaymentIds = [] ∨
      ∃ d ids rest, (drainLoop t q s).dueTimeToPaymentIds = (d, ids) :: rest ∧ t < d := by
  induction q with
  | nil =>
    intro s
    left
    simp [drainLoop]
  | cons hd rest ih =>
    intro s
    obtain ⟨d, ids⟩ := hd
    by_cases hle : d ≤ t
    · simpa [drainLoop, hle] using ih (processBucket s ids)
    · right
      exact ⟨d, ids, rest, by simp [drainLoop, hle], lt_of_not_le hle⟩

/-- Claim C9.  The preamble drain is idempotent for a fixed time bound:
a second `processDuePayments` with the same `timestamp` changes nothing,
because the first one removed every bucket with key `≤ timestamp` and the
loop stops at the first remaining bucket. -/
theorem drain_idempotent (t : Int) (s : Bank) :
    processDuePayments t (processDuePayments t s) = processDuePayments t s := by
  have hc : (processDuePayments t s).dueTimeToPaymentIds = [] ∨
      ∃ d ids rest, (processDuePayments t s).dueTimeToPaymentIds = (d, ids) :: rest ∧ t < d :=
    drainLoop_queue_cases t s.dueTimeToPaymentIds s
  rcases hc with h | ⟨d, ids, rest, h, hd⟩
  · show drainLoop t (processDuePayments t s).dueTimeToPaymentIds (processDuePayments t s) = processDuePayments t s
    rw [h]
    show { processDuePayments t s with dueTimeToPaymentIds := [] } = processDuePayments t s
    rw [← h]
  · show drainLoop t (processDuePayments t s).dueTimeToPaymentIds (processDuePayments t s) = processDuePayments t s
    rw [h]
    show (if d ≤ t then drainLoop t rest (processBucket (processDuePayments t s) ids)
      else { processDuePayments t s with dueTimeToPaymentIds := (d, ids) :: rest }) = processDuePayments t s
    rw [if_neg (not_le_of_lt hd), ← h]

theorem drainLoop_keys_gt (t : Int) (q : List (Int × List String)) :
    ∀ s : Bank, List.Pairwise (fun x y => x.1 < y.1) q →
      ∀ p ∈ (drainLoop t q s).dueTimeToPaymentIds, t < p.1 := by
  induction q with
  | nil =>
    intro s _ p hp
    simp [drainLoop] at hp
  | cons hd rest ih =>
    intro s hpw p hp
    obtain ⟨d, ids⟩ := hd
    rw [List.pairwise_cons] at hpw
    by_cases hle : d ≤ t
    · rw [show drainLoop t ((d, ids) :: rest) s = drainLoop t rest (processBucket s ids) from by
        simp [drainLoop, hle]] at hp
      exact ih (processBucket s ids) hpw.2 p hp
    · rw [show (drainLoop t ((d, ids) :: rest) s).dueTimeToPaymentIds = (d, ids) :: rest from by
        simp [drainLoop, hle]] at hp
      rcases List.mem_cons.mp hp with hp1 | hp1
      · rw [hp1]
        exact lt_of_not_le hle
      · exact lt_trans (lt_of_not_le hle) (hpw.1 p hp1)

/-- Claim C7 (amended).  The code keeps no running maximum of observed
timestamps: each drain removes exactly the buckets with `due_ts ≤` the raw
`timestamp` argument of the current call, so immediately after a drain at
`t` (on a queue with strictly ascending keys, as `std::map` iteration
guarantees) every remaining bucket — hence every still-queued payment — has
`due_ts > t`.  The counterexample shows the claim's stronger invariant,
stated against the maximum observed timestamp, fails for non-monotone
timestamp sequences. -/
theorem drain_clears_due_prefix (t : Int) (s : Bank)
    (hsorted : List.Pairwise (fun x y => x.1 < y.1) s.dueTimeToPaymentIds)
    (p : Int × List String) (hp : p ∈ (processDuePayments t s).dueTimeToPaymentIds) :
    t < p.1 :=
  drainLoop_keys_gt t s.dueTimeToPaymentIds s hsorted p hp

/-- The operation sequence refuting claim C7 as stated: timestamps run
0, 1, 100, 5; the schedule at ts 100 with delay 0 becomes due at 100. -/
def c7trace : List Op :=
  [Op.create 0 "a", Op.deposit 1 "a" 100, Op.schedule 100 "a" 5 0, Op.create 5 "c"]

/-- Counterexample to claim C7 as stated.  After `c7trace` the maximum
timestamp passed to any operation is 100, yet `payment1` (neither canceled
nor processed, due at 100) is still queued: the final drain ran against the
raw argument 5, not against `max(last_seen_ts, 5) = 100`. -/
theorem pending_due_below_max_observed :
    ((c7trace.map Op.ts).maximum = some 100) ∧
    lookupA (runOps c7trace).paymentById "payment1" =
      some ⟨"a", 5, 100, false, false, 1⟩ ∧
    (runOps c7trace).dueTimeToPaymentIds = [(100, ["payment1"])] := by
  refine ⟨by decide, by decide, by decide⟩

/-- Witness that the hypotheses of `drain_clears_due_prefix` are satisfiable:
on the concrete post-`c7trace` state (whose queue is the sorted singleton
`[(100, [payment1])]`), a drain at 5 leaves the bucket and `5 < 100`. -/
theorem drain_clears_due_prefix_witness : (5 : Int) < ((100 : Int), ["payment1"]).1 :=
  drain_clears_due_prefix 5 (runOps c7trace) (by decide) (100, ["payment1"]) (by decide)

/-- Claim C10.  A successful `MergeAccounts(ts, a, b)` conserves money
relative to the drained pre-state: the total of stored balances is
unchanged, the parent's new balance is the sum of the two old balances, and
the child's balance entry is removed (on states whose balance table has no
duplicate keys, as an `unordered_map` guarantees). -/
theorem merge_conserves_balance_sum (ts : Int) (a b : String) (s0 : Bank)
    (hnd : ((processDuePayments ts s0).accountBalances.map Prod.fst).Nodup)
    (h : (MergeAccounts ts a b s0).1 = true) :
    sumBal (MergeAccounts ts a b s0).2 = sumBal (processDuePayments ts s0) ∧
    lookupA (MergeAccounts ts a b s0).2.accountBalances a =
      some ((lookupA (processDuePayments ts s0).accountBalances a).getD 0 +
        (lookupA (processDuePayments ts s0).accountBalances b).getD 0) ∧
    lookupA (MergeAccounts ts a b s0).2.accountBalances b = none := by
  by_cases hab : a = b
  · exfalso
    simp [MergeAccounts, hab] at h
  · rcases hA : lookupA (processDuePayments ts s0).accountBalances a with _ | b1
    · exfalso
      simp [MergeAccounts, hab, hA] at h
    · rcases hB : lookupA (processDuePayments ts s0).accountBalances b with _ | b2
      · exfalso
        simp [MergeAccounts, hab, hA, hB] at h
      · have hne : b ≠ a := fun he => hab he.symm
        have hbal : (MergeAccounts ts a b s0).2.accountBalances =
            eraseA (setA (setA (processDuePayments ts s0).accountBalances a (b1 + b2)) b 0) b := by
          simp [MergeAccounts, hab, hA, hB, pushEvent]
        have hb' : lookupA (setA (processDuePayments ts s0).accountBalances a (b1 + b2)) b = some b2 := by
          rw [lookupA_setA_ne _ _ _ _ hne]
          exact hB
        have hb0 : lookupA (setA (setA (processDuePayments ts s0).accountBalances a (b1 + b2)) b 0) b = some 0 :=
          lookupA_setA_self _ _ _
        refine ⟨?_, ?_, ?_⟩
        · rw [sumBal, sumBal, hbal,
            sumSnd_eraseA _ _ _ hb0,
            sumSnd_setA _ _ _ _ hb',
            sumSnd_setA _ _ _ _ hA]
          ring
        · rw [hbal, lookupA_eraseA_ne _ _ _ (Ne.symm hne),
            lookupA_setA_ne _ _ _ _ (Ne.symm hne),
            lookupA_setA_self]
          simp [hA, hB]
        · have hk1 : (setA (processDuePayments ts s0).accountBalances a (b1 + b2)).map Prod.fst =
              (processDuePayments ts s0).accountBalances.map Prod.fst :=
            keys_setA_of_lookup _ _ _ _ hA
          have hk2 : (setA (setA (processDuePayments ts s0).accountBalances a (b1 + b2)) b 0).map Prod.fst =
              (setA (processDuePayments ts s0).accountBalances a (b1 + b2)).map Prod.fst :=
            keys_setA_of_lookup _ _ _ _ hb'
          rw [hbal]
          exact lookupA_eraseA_self_of_nodup _ _ (by rw [hk2, hk1]; exact hnd)

/-- Witness for `merge_conserves_balance_sum` at a concrete reachable state:
two accounts holding 50 and 30 are merged at ts 7 (spec scenario S5). -/
def c10state : Bank :=
  runOps [Op.create 0 "a", Op.create 0 "b", Op.deposit 1 "a" 50, Op.deposit 1 "b" 30]

theorem merge_conserves_balance_sum_witness :
    sumBal (MergeAccounts 7 "a" "b" c10state).2 = sumBal (processDuePayments 7 c10state) ∧
    lookupA (MergeAccounts 7 "a" "b" c10state).2.accountBalances "a" =
      some ((lookupA (processDuePayments 7 c10state).accountBalances "a").getD 0 +
        (lookupA (processDuePayments 7 c10state).accountBalances "b").getD 0) ∧
    lookupA (MergeAccounts 7 "a" "b" c10state).2.accountBalances "b" = none :=
  merge_conserves_balance_sum 7 "a" "b" c10state (by decide) (by decide)

/-- Claim C4 (amended).  `Transfer` returns nil exactly when the two ids are
equal, either id is missing from the balance table after the preamble drain,
or the source balance is below `amount`; the source performs no
`amount ≤ 0` check.  Whenever it returns nil the state is exactly the
drained state (no partial change). -/
theorem transfer_failure_characterization (ts : Int) (src dst : String)
    (amount : Int) (s0 : Bank) :
    ((Transfer ts src dst amount s0).1 = none ↔
      (src = dst ∨ lookupA (processDuePayments ts s0).accountBalances src = none ∨
        lookupA (processDuePayments ts s0).accountBalances dst = none ∨
        ∃ b, lookupA (processDuePayments ts s0).accountBalances src = some b ∧ b < amount)) ∧
    ((Transfer ts src dst amount s0).1 = none →
      (Transfer ts src dst amount s0).2 = processDuePayments ts s0) := by
  by_cases hsd : src = dst
  · constructor
    · simp [Transfer, hsd]
    · intro _
      simp [Transfer, hsd]
  · rcases hS : lookupA (processDuePayments ts s0).accountBalances src with _ | bs
    · constructor <;> simp [Transfer, hsd, hS]
    · rcases hT : lookupA (processDuePayments ts s0).accountBalances dst with _ | bt
      · constructor <;> simp [Transfer, hsd, hS, hT]
      · by_cases hlt : bs < amount
        · constructor <;> simp [Transfer, hsd, hS, hT, hlt]
        · constructor <;> simp [Transfer, hsd, hS, hT, hlt]

/-- Counterexample to claim C4 as stated: with two fresh accounts (both
balances 0), a zero-amount transfer succeeds returning `some 0`, and a
negative-amount transfer succeeds returning `some 5` (it even credits the
source), although the claim requires nil whenever `amount ≤ 0`. -/
theorem transfer_nonpositive_amount_not_rejected :
    (Transfer 1 "a" "b" 0 (runOps [Op.create 0 "a", Op.create 0 "b"])).1 = some 0 ∧
    (Transfer 1 "a" "b" (-5) (runOps [Op.create 0 "a", Op.create 0 "b"])).1 = some 5 := by
  refine ⟨by decide, by decide⟩

/-- Claim C5 (amended).  `Deposit` returns nil exactly when the account id is
missing from the balance table after the preamble drain — the source never
validates `amount > 0`; on failure the state is exactly the drained state,
and on success the returned balance is the old balance plus `amount`
(whatever its sign). -/
theorem deposit_failure_characterization (ts : Int) (id : String) (amount : Int)
    (s0 : Bank) :
    ((Deposit ts id amount s0).1 = none ↔
      lookupA (processDuePayments ts s0).accountBalances id = none) ∧
    ((Deposit ts id amount s0).1 = none →
      (Deposit ts id amount s0).2 = processDuePayments ts s0) ∧
    (∀ b, lookupA (processDuePayments ts s0).accountBalances id = some b →
      (Deposit ts id amount s0).1 = some (b + amount)) := by
  rcases hL : lookupA (processDuePayments ts s0).accountBalances id with _ | b
  · refine ⟨by simp [Deposit, hL], by simp [Deposit, hL], ?_⟩
    intro b hb
    cases hb
  · refine ⟨by simp [Deposit, hL], by simp [Deposit, hL], ?_⟩
    intro b' hb
    cases hb
    simp [Deposit, hL]

/-- Counterexample to claim C5 as stated: depositing `-5` (and `0`) into a
fresh active account returns `some` — and drives the stored balance to
`-5` — although the claim requires nil whenever `amount ≤ 0`. -/
theorem deposit_nonpositive_amount_not_rejected :
    (Deposit 1 "a" (-5) (runOps [Op.create 0 "a"])).1 = some (-5) ∧
    (Deposit 1 "a" 0 (runOps [Op.create 0 "a"])).1 = some 0 ∧
    lookupA (runOps [Op.create 0 "a", Op.deposit 1 "a" (-5)]).accountBalances "a" = some (-5) := by
  refine ⟨by decide, by decide, by decide⟩

/-- Lookup after an `emplace` of a previously-unbound key finds the new
binding. -/
theorem lookupA_emplaceA_self {κ α : Type} [DecidableEq κ] (m : List (κ × α))
    (k : κ) (v : α) (h : lookupA m k = none) : lookupA (emplaceA m k v) k = some v := by
  rw [show emplaceA m k v = m ++ [(k, v)] from by rw [emplaceA, h]]
  induction m with
  | nil => simp [lookupA]
  | cons p rest ih =>
    by_cases h1 : p.1 = k
    · exact absurd h (by simp [lookupA, h1])
    · have h2 : lookupA rest k = none := by simpa [lookupA, h1] using h
      simpa [lookupA, h1] using ih h2

/-- Claim C6 (amended).  `SchedulePayment` returns nil exactly when the
account id is missing after the preamble drain — the source validates
neither `amount > 0` nor `delay ≥ 0`.  On success it returns
`"payment" + ordinal` for the current process-wide counter value, increments
the counter, stores a fresh not-processed, not-canceled record, enqueues the
id at `due_ts = ts + delay`, and touches no balance (nothing executes at
schedule time). -/
theorem schedulePayment_behavior (ts : Int) (id : String) (amount delay : Int)
    (s0 : Bank) :
    ((SchedulePayment ts id amount delay s0).1 = none ↔
      lookupA (processDuePayments ts s0).accountBalances id = none) ∧
    ((∃ b, lookupA (processDuePayments ts s0).accountBalances id = some b) →
      lookupA (processDuePayments ts s0).paymentById
        (payName (processDuePayments ts s0).nextPaymentOrdinal) = none →
      ((SchedulePayment ts id amount delay s0).1 =
        some (payName (processDuePayments ts s0).nextPaymentOrdinal) ∧
      (SchedulePayment ts id amount delay s0).2.nextPaymentOrdinal =
        (processDuePayments ts s0).nextPaymentOrdinal + 1 ∧
      lookupA (SchedulePayment ts id amount delay s0).2.paymentById
          (payName (processDuePayments ts s0).nextPaymentOrdinal) =
        some ⟨id, amount, ts + delay, false, false, (processDuePayments ts s0).nextPaymentOrdinal⟩ ∧
      (SchedulePayment ts id amount delay s0).2.dueTimeToPaymentIds =
        enqueuePayment (processDuePayments ts s0).dueTimeToPaymentIds (ts + delay)
          (payName (processDuePayments ts s0).nextPaymentOrdinal) ∧
      (SchedulePayment ts id amount delay s0).2.accountBalances =
        (processDuePayments ts s0).accountBalances)) := by
  rcases hL : lookupA (processDuePayments ts s0).accountBalances id with _ | b
  · refine ⟨by simp [SchedulePayment, hL], ?_⟩
    rintro ⟨b, hb⟩
    cases hb
  · refine ⟨by simp [SchedulePayment, hL], ?_⟩
    rintro ⟨b', _⟩ hfresh
    have hpost : (SchedulePayment ts id amount delay s0).2.paymentById =
        emplaceA (processDuePayments ts s0).paymentById
          (payName (processDuePayments ts s0).nextPaymentOrdinal)
          ⟨id, amount, ts + delay, false, false, (processDuePayments ts s0).nextPaymentOrdinal⟩ := by
      simp [SchedulePayment, hL]
    refine ⟨by simp [SchedulePayment, hL], by simp [SchedulePayment, hL], ?_,
      by simp [SchedulePayment, hL], by simp [SchedulePayment, hL]⟩
    rw [hpost]
    exact lookupA_emplaceA_self _ _ _ hfresh

/-- Counterexample to claim C6 as stated: scheduling with a negative amount
and a negative delay on a fresh account is accepted (`some "payment1"`) and
enqueued at the past due time `1 + (-3) = -2`, although the claim requires
nil whenever `amount ≤ 0` or `delay < 0`. -/
theorem schedulePayment_invalid_args_not_rejected :
    (SchedulePayment 1 "a" (-5) (-3) (runOps [Op.create 0 "a"])).1 = some "payment1" ∧
    (SchedulePayment 1 "a" (-5) (-3) (runOps [Op.create 0 "a"])).2.dueTimeToPaymentIds =
      [(-2, ["payment1"])] := by
  refine ⟨by decide, by decide⟩

/-- Claim C8 (amended).  For a payment id taken out of a drained bucket:
a missing or canceled payment is skipped with NO state change at all (in
particular `processed` stays false — only the bucket removal forgets it);
a payment whose owner is missing from the balance table is likewise skipped
unchanged; a payment whose owner exists is attempted — funded or not — and
its record is re-stored with `processed = true`.  A later `CancelPayment`
still returns false both for a canceled payment (the `canceled` test fires)
and for an attempted one (the `processed` test fires). -/
theorem drain_bucket_processed_flags (s : Bank) (pid : String) :
    (lookupA s.paymentById pid = none → processPayment s pid = s) ∧
    (∀ info, lookupA s.paymentById pid = some info →
      (info.canceled = true → processPayment s pid = s) ∧
      (info.canceled = false →
        lookupA s.accountBalances info.accountId = none → processPayment s pid = s) ∧
      (∀ bal, info.canceled = false →
        lookupA s.accountBalances info.accountId = some bal →
        lookupA (processPayment s pid).paymentById pid =
          some { info with processed := true })) ∧
    (∀ ts acct info, lookupA (processDuePayments ts s).paymentById pid = some info →
      (info.canceled = true ∨ info.processed = true) →
      (CancelPayment ts acct pid s).1 = false) := by
  refine ⟨?_, ?_, ?_⟩
  · intro h
    simp [processPayment, h]
  · intro info hinfo
    refine ⟨?_, ?_, ?_⟩
    · intro hc
      simp [processPayment, hinfo, hc]
    · intro hc howner
      simp [processPayment, hinfo, hc, howner]
    · intro bal hc howner
      by_cases hfund : info.amount ≤ bal
      · rw [show (processPayment s pid).paymentById =
            setA (pushEvent { s with accountBalances := setA s.accountBalances info.accountId (bal - info.amount) } info.accountId info.dueTimestamp (-info.amount)).paymentById pid { info with processed := true } from by
          simp [processPayment, hinfo, hc, howner, hfund]]
        exact lookupA_setA_self _ _ _
      · rw [show (processPayment s pid).paymentById =
            setA s.paymentById pid { info with processed := true } from by
          simp [processPayment, hinfo, hc, howner, hfund]]
        exact lookupA_setA_self _ _ _
  · intro ts acct info hinfo hterm
    rcases hterm with hterm | hterm
    · simp [CancelPayment, hinfo, hterm]
    · by_cases hc : info.canceled = true
      · simp [CancelPayment, hinfo, hc]
      · simp [CancelPayment, hinfo, hc, hterm]

/-- The operation sequence refuting claim C8 as stated: a payment is
scheduled (due at 7), canceled at ts 3, and the deposit at ts 10 drains the
bucket containing it. -/
def c8trace : List Op :=
  [Op.create 0 "a", Op.deposit 1 "a" 100, Op.schedule 2 "a" 10 5,
   Op.cancel 3 "a" "payment1", Op.deposit 10 "a" 0]

/-- Counterexample to claim C8 as stated.  After `c8trace` the bucket that
held `payment1` has been removed by the drain, yet the stored record still
has `processed = false` (the claim requires `processed = true` for the
canceled branch); the final conjunct shows the claim's consequence about
`CancelPayment` still holds on this input for a different reason (it is
already canceled). -/
theorem canceled_drained_payment_not_marked :
    lookupA (runOps c8trace).paymentById "payment1" =
      some ⟨"a", 10, 7, true, false, 1⟩ ∧
    (runOps c8trace).dueTimeToPaymentIds = [] ∧
    (CancelPayment 11 "a" "payment1" (runOps c8trace)).1 = false := by
  refine ⟨by decide, by decide, by decide⟩

/-! ## Non-negativity of balances (claim C3) -/

/-- Every stored balance is non-negative. -/
def BalancesNonneg (s : Bank) : Prop :=
  ∀ p ∈ s.accountBalances, 0 ≤ p.2

/-- The valid-usage side condition the spec imposes on money amounts:
deposits and transfers carry non-negative amounts.  (The drain path needs no
such condition: it only debits when `balance ≥ amount`.) -/
def Op.amountsNonneg : Op → Prop
  | .deposit _ _ a => 0 ≤ a
  | .transfer _ _ _ a => 0 ≤ a
  | _ => True

theorem nonneg_setA {m : List (String × Int)} {k : String} {v : Int}
    (hm : ∀ p ∈ m, 0 ≤ p.2) (hv : 0 ≤ v) : ∀ p ∈ setA m k v, 0 ≤ p.2 := by
  intro p hp
  rcases mem_setA hp with h | h
  · rw [h]
    exact hv
  · exact hm p h

theorem processPayment_nonneg (s : Bank) (pid : String) (h : BalancesNonneg s) :
    BalancesNonneg (processPayment s pid) := by
  rcases hL : lookupA s.paymentById pid with _ | info
  · simpa [BalancesNonneg, processPayment, hL] using h
  · by_cases hc : info.canceled
    · simpa [BalancesNonneg, processPayment, hL, hc] using h
    · rcases hO : lookupA s.accountBalances info.accountId with _ | bal
      · simpa [BalancesNonneg, processPayment, hL, hc, hO] using h
      · by_cases hf : info.amount ≤ bal
        · have hbal : (processPayment s pid).accountBalances =
              setA s.accountBalances info.accountId (bal - info.amount) := by
            simp [processPayment, hL, hc, hO, hf, pushEvent]
          intro p hp
          rw [hbal] at hp
          exact nonneg_setA h (by linarith) p hp
        · have hbal : (processPayment s pid).accountBalances = s.accountBalances := by
            simp [processPayment, hL, hc, hO, hf]
          intro p hp
          rw [hbal] at hp
          exact h p hp

theorem processBucket_nonneg (ids : List String) :
    ∀ s : Bank, BalancesNonneg s → BalancesNonneg (processBucket s ids) := by
  induction ids with
  | nil => intro s h; exact h
  | cons pid rest ih =>
    intro s h
    exact ih (processPayment s pid) (processPayment_nonneg s pid h)

theorem drainLoop_nonneg (t : Int) (q : List (Int × List String)) :
    ∀ s : Bank, BalancesNonneg s → BalancesNonneg (drainLoop t q s) := by
  induction q with
  | nil =>
    intro s h p hp
    exact h p hp
  | cons hd rest ih =>
    intro s h
    obtain ⟨d, ids⟩ := hd
    by_cases hle : d ≤ t
    · rw [show drainLoop t ((d, ids) :: rest) s = drainLoop t rest (processBucket s ids) from by
        simp [drainLoop, hle]]
      exact ih (processBucket s ids) (processBucket_nonneg ids s h)
    · rw [show drainLoop t ((d, ids) :: rest) s = { s with dueTimeToPaymentIds := (d, ids) :: rest } from by
        simp [drainLoop, hle]]
      exact h

theorem processDuePayments_nonneg (t : Int) (s : Bank) (h : BalancesNonneg s) :
    BalancesNonneg (processDuePayments t s) :=
  drainLoop_nonneg t s.dueTimeToPaymentIds s h

theorem applyOp_nonneg (s : Bank) (op : Op) (h : BalancesNonneg s)
    (hop : op.amountsNonneg) : BalancesNonneg (applyOp s op) := by
  cases op with
  | create t id =>
    have hd := processDuePayments_nonneg t s h
    rcases hL : lookupA (processDuePayments t s).accountBalances id with _ | b
    · have hbal : (applyOp s (Op.create t id)).accountBalances =
          setA (processDuePayments t s).accountBalances id 0 := by
        simp [applyOp, CreateAccount, hL, pushEvent]
      intro p hp
      rw [hbal] at hp
      exact nonneg_setA hd le_rfl p hp
    · simpa [BalancesNonneg, applyOp, CreateAccount, hL] using hd
  | deposit t id a =>
    have hd := processDuePayments_nonneg t s h
    rcases hL : lookupA (processDuePayments t s).accountBalances id with _ | b
    · simpa [BalancesNonneg, applyOp, Deposit, hL] using hd
    · have hb : 0 ≤ b := hd _ (lookupA_mem hL)
      have hbal : (applyOp s (Op.deposit t id a)).accountBalances =
          setA (processDuePayments t s).accountBalances id (b + a) := by
        simp [applyOp, Deposit, hL, pushEvent]
      intro p hp
      rw [hbal] at hp
      exact nonneg_setA hd (by exact add_nonneg hb hop) p hp
  | transfer t src dst a =>
    have hd := processDuePayments_nonneg t s h
    by_cases hsd : src = dst
    · simpa [BalancesNonneg, applyOp, Transfer, hsd] using hd
    · rcases hS : lookupA (processDuePayments t s).accountBalances src with _ | bs
      · simpa [BalancesNonneg, applyOp, Transfer, hsd, hS] using hd
      · rcases hT : lookupA (processDuePayments t s).accountBalances dst with _ | bt
        · simpa [BalancesNonneg, applyOp, Transfer, hsd, hS, hT] using hd
        · by_cases hlt : bs < a
          · simpa [BalancesNonneg, applyOp, Transfer, hsd, hS, hT, hlt] using hd
          · have hbs : 0 ≤ bs := hd _ (lookupA_mem hS)
            have hbt : 0 ≤ bt := hd _ (lookupA_mem hT)
            have hbal : (applyOp s (Op.transfer t src dst a)).accountBalances =
                setA (setA (processDuePayments t s).accountBalances src (bs - a)) dst (bt + a) := by
              simp [applyOp, Transfer, hsd, hS, hT, hlt, pushEvent]
            intro p hp
            rw [hbal] at hp
            exact nonneg_setA (nonneg_setA hd (by linarith)) (by exact add_nonneg hbt hop) p hp
  | schedule t id a d =>
    have hd := processDuePayments_nonneg t s h
    rcases hL : lookupA (processDuePayments t s).accountBalances id with _ | b <;>
      simpa [BalancesNonneg, applyOp, SchedulePayment, hL] using hd
  | cancel t id pid =>
    have hd := processDuePayments_nonneg t s h
    rcases hL : lookupA (processDuePayments t s).paymentById pid with _ | info
    · simpa [BalancesNonneg, applyOp, CancelPayment, hL] using hd
    · by_cases hc : info.canceled <;> by_cases hpr : info.processed <;>
        by_cases hacct : info.accountId = id <;>
        simpa [BalancesNonneg, applyOp, CancelPayment, hL, hc, hpr, hacct] using hd
  | merge t a b =>
    have hd := processDuePayments_nonneg t s h
    by_cases hab : a = b
    · simpa [BalancesNonneg, applyOp, MergeAccounts, hab] using hd
    · rcases hA : lookupA (processDuePayments t s).accountBalances a with _ | b1
      · simpa [BalancesNonneg, applyOp, MergeAccounts, hab, hA] using hd
      · rcases hB : lookupA (processDuePayments t s).accountBalances b with _ | b2
        · simpa [BalancesNonneg, applyOp, MergeAccounts, hab, hA, hB] using hd
        · have hb1 : 0 ≤ b1 := hd _ (lookupA_mem hA)
          have hb2 : 0 ≤ b2 := hd _ (lookupA_mem hB)
          have hbal : (applyOp s (Op.merge t a b)).accountBalances =
              eraseA (setA (setA (processDuePayments t s).accountBalances a (b1 + b2)) b 0) b := by
            simp [applyOp, MergeAccounts, hab, hA, hB, pushEvent]
          intro p hp
          rw [hbal] at hp
          exact nonneg_setA (nonneg_setA hd (by linarith)) le_rfl p (mem_eraseA hp)
  | getBalance t id tAt =>
    have hd := processDuePayments_nonneg t s h
    simpa [BalancesNonneg, applyOp, GetBalance] using hd

theorem runFrom_nonneg (ops : List Op) :
    ∀ s : Bank, BalancesNonneg s → (∀ op ∈ ops, op.amountsNonneg) →
      BalancesNonneg (runFrom s ops) := by
  induction ops with
  | nil => intro s h _; exact h
  | cons op rest ih =>
    intro s h hops
    exact ih (applyOp s op) (applyOp_nonneg s op h (hops op (List.mem_cons_self op rest)))
      (fun o ho => hops o (List.mem_cons_of_mem op ho))

/-- Claim C3 (amended).  Provided every Deposit and Transfer in the trace
carries a non-negative amount (the validity condition the spec assumes but
the code never checks), every balance in every reachable state is ≥ 0: the
drain only debits funded accounts, transfers only debit up to the source
balance, and merges and creations only combine or zero balances.  The
counterexample shows the invariant fails as soon as a negative amount is
passed, because the code omits the `amount > 0` precondition. -/
theorem balances_nonneg_of_nonneg_amounts (ops : List Op)
    (hops : ∀ op ∈ ops, op.amountsNonneg) : BalancesNonneg (runOps ops) :=
  runFrom_nonneg ops Bank.init (fun p hp => by cases hp) hops

/-- Witness: after `[create a, deposit 50]` (all amounts non-negative) the
stored pair `("a", 50)` indeed has a non-negative balance. -/
theorem balances_nonneg_of_nonneg_amounts_witness : (0 : Int) ≤ 50 :=
  balances_nonneg_of_nonneg_amounts [Op.create 0 "a", Op.deposit 1 "a" 50]
    (by intro op hop; fin_cases hop <;> simp [Op.amountsNonneg]) ("a", 50) (by decide)

/-- Counterexample to claim C3 as stated: `Deposit(1, "a", -5)` on a fresh
account SUCCEEDS (returns `some (-5)`) and leaves the stored balance
negative, refuting both `balance(a) ≥ 0` as a reachable-state invariant and
"no successful Deposit ... leaves any account's balance negative". -/
theorem negative_deposit_breaks_nonneg :
    (Deposit 1 "a" (-5) (runOps [Op.create 0 "a"])).1 = some (-5) ∧
    lookupA (runOps [Op.create 0 "a", Op.deposit 1 "a" (-5)]).accountBalances "a" = some (-5) ∧
    ¬ BalancesNonneg (runOps [Op.create 0 "a", Op.deposit 1 "a" (-5)]) := by
  refine ⟨by decide, by decide, ?_⟩
  intro h
  have h5 := h ("a", -5) (by decide)
  norm_num at h5

/-! ## Balance-event sum lemmas -/

theorem sumEventsUpTo_foldl_init (evs : List (Int × Int)) (t : Int) :
    ∀ init : Int,
      evs.foldl (fun acc e => if e.1 ≤ t then acc + e.2 else acc) init =
        init + sumEventsUpTo evs t := by
  induction evs with
  | nil =>
    intro init
    simp [sumEventsUpTo]
  | cons e rest ih =>
    intro init
    show List.foldl _ (if e.1 ≤ t then init + e.2 else init) rest = _
    rw [ih]
    rw [show sumEventsUpTo (e :: rest) t =
      List.foldl (fun acc e => if e.1 ≤ t then acc + e.2 else acc) (if e.1 ≤ t then 0 + e.2 else 0) rest from rfl]
    rw [ih]
    by_cases he : e.1 ≤ t
    · simp [he]
      ring
    · simp [he]

theorem sumEventsUpTo_append (xs ys : List (Int × Int)) (t : Int) :
    sumEventsUpTo (xs ++ ys) t = sumEventsUpTo xs t + sumEventsUpTo ys t := by
  rw [sumEventsUpTo, List.foldl_append]
  rw [show List.foldl (fun acc e => if e.1 ≤ t then acc + e.2 else acc) 0 xs = sumEventsUpTo xs t from rfl]
  exact sumEventsUpTo_foldl_init ys t (sumEventsUpTo xs t)

theorem eventsOf_pushEvent_self (s : Bank) (id : String) (ts d : Int) :
    eventsOf (pushEvent s id ts d) id = eventsOf s id ++ [(ts, d)] := by
  simp [eventsOf, pushEvent, lookupA_setA_self]

theorem eventsOf_pushEvent_ne (s : Bank) (id j : String) (ts d : Int) (h : j ≠ id) :
    eventsOf (pushEvent s id ts d) j = eventsOf s j := by
  simp [eventsOf, pushEvent, lookupA_setA_ne _ _ _ _ h]

/-- Claim C2 (amended).  On the state produced by a successful
`MergeAccounts(ts, a, b)` — and for as long as `b` is not re-created, since
nothing after the merge touches `b`'s record — the historical query behaves
as claimed, under the data invariants that hold for `b` while it is active
in a monotone-timestamp run: `b` carries no merge edge, was created at some
`c ≤ ts`, and its balance equals the sum of its event deltas up to `ts`.
Then a query at `t > ts` yields nil, at `t = ts` yields 0 (post-debit), and
at `t < ts` yields exactly what the drained pre-merge state would have
answered. -/
theorem merge_child_query_behavior (ts : Int) (a b : String) (s0 : Bank)
    (hmerge : (MergeAccounts ts a b s0).1 = true)
    (hnoedge : lookupA (processDuePayments ts s0).mergedInto b = none)
    (hcreated : ∃ c, lookupA (processDuePayments ts s0).accountCreationTime b = some c ∧ c ≤ ts)
    (hI1 : ∀ bb, lookupA (processDuePayments ts s0).accountBalances b = some bb →
      sumEventsUpTo (eventsOf (processDuePayments ts s0) b) ts = bb) :
    (∀ t, ts < t → getBalanceIn (MergeAccounts ts a b s0).2 b t = none) ∧
    getBalanceIn (MergeAccounts ts a b s0).2 b ts = some 0 ∧
    (∀ t, t < ts → getBalanceIn (MergeAccounts ts a b s0).2 b t =
      getBalanceIn (processDuePayments ts s0) b t) := by
  by_cases hab : a = b
  · exfalso
    simp [MergeAccounts, hab] at hmerge
  rcases hA : lookupA (processDuePayments ts s0).accountBalances a with _ | b1
  · exfalso
    simp [MergeAccounts, hab, hA] at hmerge
  rcases hB : lookupA (processDuePayments ts s0).accountBalances b with _ | b2
  · exfalso
    simp [MergeAccounts, hab, hA, hB] at hmerge
  have hne : b ≠ a := fun h => hab h.symm
  have hedge : lookupA (MergeAccounts ts a b s0).2.mergedInto b = some (a, ts) := by
    rw [show (MergeAccounts ts a b s0).2.mergedInto =
        setA (processDuePayments ts s0).mergedInto b (a, ts) from by
      simp [MergeAccounts, hab, hA, hB, pushEvent]]
    exact lookupA_setA_self _ _ _
  have hct : (MergeAccounts ts a b s0).2.accountCreationTime =
      (processDuePayments ts s0).accountCreationTime := by
    simp [MergeAccounts, hab, hA, hB, pushEvent]
  have hbe : (MergeAccounts ts a b s0).2.balanceEvents = (pushEvent (pushEvent { processDuePayments ts s0 with accountBalances := setA (processDuePayments ts s0).accountBalances a (b1 + b2) } a ts b2) b ts (-b2)).balanceEvents := by
    simp [MergeAccounts, hab, hA, hB]
  have hev : eventsOf (MergeAccounts ts a b s0).2 b =
      eventsOf (processDuePayments ts s0) b ++ [(ts, -b2)] := by
    show (lookupA (MergeAccounts ts a b s0).2.balanceEvents b).getD [] = _
    rw [hbe]
    show eventsOf (pushEvent (pushEvent { processDuePayments ts s0 with accountBalances := setA (processDuePayments ts s0).accountBalances a (b1 + b2) } a ts b2) b ts (-b2)) b = _
    rw [eventsOf_pushEvent_self, eventsOf_pushEvent_ne _ _ _ _ _ hne]
    rfl
  obtain ⟨c, hc, hcle⟩ := hcreated
  refine ⟨?_, ?_, ?_⟩
  · intro t ht
    simp [getBalanceIn, hedge, ht]
  · have hsum : sumEventsUpTo (eventsOf (MergeAccounts ts a b s0).2 b) ts = 0 := by
      rw [hev, sumEventsUpTo_append, hI1 b2 hB]
      simp [sumEventsUpTo]
    simp [getBalanceIn, hedge, hct, hc, not_lt_of_le hcle, hsum]
  · intro t ht
    have hts : ¬ ts < t := not_lt_of_le (le_of_lt ht)
    have hsum : sumEventsUpTo (eventsOf (MergeAccounts ts a b s0).2 b) t =
        sumEventsUpTo (eventsOf (processDuePayments ts s0) b) t := by
      rw [hev, sumEventsUpTo_append]
      simp [sumEventsUpTo, not_le_of_lt ht]
    simp [getBalanceIn, hedge, hnoedge, hct, hts, hsum]

/-- The pre-merge trace for the C2 witness: `b` holds 100 at merge time. -/
def c2pre : Bank :=
  runOps [Op.create 0 "a", Op.create 0 "b", Op.deposit 1 "b" 100]

/-- Witness for `merge_child_query_behavior` at the concrete merge
`MergeAccounts(5, "a", "b")` of spec scenario S5's shape. -/
theorem merge_child_query_behavior_witness :
    (∀ t, (5 : Int) < t → getBalanceIn (MergeAccounts 5 "a" "b" c2pre).2 "b" t = none) ∧
    getBalanceIn (MergeAccounts 5 "a" "b" c2pre).2 "b" 5 = some 0 ∧
    (∀ t, t < (5 : Int) → getBalanceIn (MergeAccounts 5 "a" "b" c2pre).2 "b" t =
      getBalanceIn (processDuePayments 5 c2pre) "b" t) := by
  refine merge_child_query_behavior 5 "a" "b" c2pre (by decide) (by decide)
    ⟨0, by decide, by decide⟩ ?_
  intro bb hbb
  rw [show lookupA (processDuePayments 5 c2pre).accountBalances "b" = some 100 from by decide] at hbb
  cases hbb
  decide

/-- The trace refuting claim C2 as stated: after the successful merge at
ts 5, `b` is re-created at ts 10 and receives a deposit at ts 20. -/
def c2trace : List Op :=
  [Op.create 0 "a", Op.create 0 "b", Op.deposit 1 "b" 100,
   Op.merge 5 "a" "b", Op.create 10 "b", Op.deposit 20 "b" 7]

/-- Counterexample to claim C2 as stated.  The merge at ts 5 succeeded, yet
a later query at `t_at = 20 > 5` does not return nil: re-creating `b`
erased the merge edge, so `GetBalance` answers `some 7` for the new
lifetime.  "For every later query ... nil for every t > ts" is false. -/
theorem merge_child_nil_refuted_by_recreation :
    (MergeAccounts 5 "a" "b" c2pre).1 = true ∧
    (GetBalance 30 "b" 20 (runOps c2trace)).1 = some 7 := by
  refine ⟨by decide, by decide⟩

/-! ## Injectivity of the payment-id naming scheme

`SchedulePayment` relies on `"payment" + std::to_string(ordinal)` being
fresh because the ordinal counter is strictly increasing; the trace
invariants for claim C1 need that freshness, hence injectivity of the
decimal printer on the ordinals in use. -/

/-- Decimal digits of `n`, most significant first (reference recursion). -/
def decDigits (n : Nat) : List Char :=
  if _h : n < 10 then [Nat.digitChar n]
  else decDigits (n / 10) ++ [Nat.digitChar (n % 10)]
decreasing_by
  exact Nat.div_lt_self (by omega) (by omega)

theorem decDigits_eq (n : Nat) : decDigits n =
    if n < 10 then [Nat.digitChar n] else decDigits (n / 10) ++ [Nat.digitChar (n % 10)] := by
  rw [decDigits]
  by_cases h : n < 10 <;> simp [h]

theorem decDigits_of_lt {n : Nat} (h : n < 10) : decDigits n = [Nat.digitChar n] := by
  rw [decDigits_eq, if_pos h]

theorem decDigits_of_ge {n : Nat} (h : ¬ n < 10) :
    decDigits n = decDigits (n / 10) ++ [Nat.digitChar (n % 10)] := by
  rw [decDigits_eq, if_neg h]

theorem decDigits_ne_nil (n : Nat) : decDigits n ≠ [] := by
  rw [decDigits_eq]
  by_cases h : n < 10 <;> simp [h]

theorem digitChar_injOn {a b : Nat} (ha : a < 10) (hb : b < 10)
    (h : Nat.digitChar a = Nat.digitChar b) : a = b := by
  have hfin : ∀ x y : Fin 10, Nat.digitChar x.1 = Nat.digitChar y.1 → x = y := by decide
  have := hfin ⟨a, ha⟩ ⟨b, hb⟩ h
  exact congrArg Fin.val this

theorem toDigitsCore_eq_decDigits : ∀ (n fuel : Nat) (acc : List Char), n < fuel →
    Nat.toDigitsCore 10 fuel n acc = decDigits n ++ acc := by
  intro n
  induction n using Nat.strong_induction_on with
  | _ n ih =>
    intro fuel acc hlt
    match fuel with
    | 0 => exact absurd hlt (Nat.not_lt_zero n)
    | f + 1 =>
      by_cases hd : n / 10 = 0
      · have hn10 : n < 10 := by omega
        have hmod : n % 10 = n := Nat.mod_eq_of_lt hn10
        simp only [Nat.toDigitsCore, hd, if_pos]
        rw [decDigits_of_lt hn10, hmod]
        rfl
      · have hn10 : ¬ n < 10 := by omega
        have hlt2 : n / 10 < n := Nat.div_lt_self (by omega) (by omega)
        have hfuel : n / 10 < f := by omega
        simp only [Nat.toDigitsCore, hd, if_neg, not_false_iff]
        rw [ih (n / 10) hlt2 f (Nat.digitChar (n % 10) :: acc) hfuel]
        rw [decDigits_of_ge hn10]
        simp

theorem decDigits_inj : ∀ (a b : Nat), decDigits a = decDigits b → a = b := by
  intro a
  induction a using Nat.strong_induction_on with
  | _ a ih =>
    intro b h
    by_cases ha : a < 10 <;> by_cases hb : b < 10
    · rw [decDigits_of_lt ha, decDigits_of_lt hb] at h
      exact digitChar_injOn ha hb (by simpa using h)
    · rw [decDigits_of_lt ha, decDigits_of_ge hb] at h
      have hlen := congrArg List.length h
      simp at hlen
      exact absurd hlen (decDigits_ne_nil (b / 10))
    · rw [decDigits_of_ge ha, decDigits_of_lt hb] at h
      have hlen := congrArg List.length h
      simp at hlen
      exact absurd hlen (decDigits_ne_nil (a / 10))
    · rw [decDigits_of_ge ha, decDigits_of_ge hb] at h
      obtain ⟨h1, h2⟩ := List.append_inj' h (by simp)
      have hq : a / 10 = b / 10 := ih (a / 10) (Nat.div_lt_self (by omega) (by omega)) (b / 10) h1
      have hr : a % 10 = b % 10 :=
        digitChar_injOn (Nat.mod_lt _ (by omega)) (Nat.mod_lt _ (by omega)) (by simpa using h2)
      omega

theorem natRepr_inj {a b : Nat} (h : Nat.repr a = Nat.repr b) : a = b := by
  have hdig : Nat.toDigits 10 a = Nat.toDigits 10 b := by
    have := congrArg String.data h
    simpa [Nat.repr, List.asString] using this
  rw [show Nat.toDigits 10 a = Nat.toDigitsCore 10 (a + 1) a [] from rfl,
    show Nat.toDigits 10 b = Nat.toDigitsCore 10 (b + 1) b [] from rfl,
    toDigitsCore_eq_decDigits a (a + 1) [] (Nat.lt_succ_self a),
    toDigitsCore_eq_decDigits b (b + 1) [] (Nat.lt_succ_self b)] at hdig
  simp at hdig
  exact decDigits_inj a b hdig

theorem intToString_nonneg (m : Int) (h : 0 ≤ m) : toString m = Nat.repr m.toNat := by
  match m with
  | .ofNat k => rfl
  | .negSucc k => exact absurd h (by simp)

theorem payName_inj {m n : Int} (hm : 0 ≤ m) (hn : 0 ≤ n)
    (h : payName m = payName n) : m = n := by
  have hdata := congrArg String.data h
  rw [show (payName m).data = ("payment" : String).data ++ (toString m).data from String.data_append _ _,
    show (payName n).data = ("payment" : String).data ++ (toString n).data from String.data_append _ _] at hdata
  have h2 : (toString m).data = (toString n).data := List.append_cancel_left hdata
  have h3 : toString m = toString n := String.ext h2
  rw [intToString_nonneg m hm, intToString_nonneg n hn] at h3
  have h4 := natRepr_inj h3
  omega

/-! ## Further association-list and queue lemmas (infrastructure for C1) -/

theorem lookupA_eq_none_iff {κ α : Type} [DecidableEq κ] (m : List (κ × α)) (k : κ) :
    lookupA m k = none ↔ k ∉ m.map Prod.fst := by
  induction m with
  | nil => simp [lookupA]
  | cons p rest ih =>
    by_cases hk : p.1 = k
    · simp [lookupA, hk]
    · have hne : ¬ k = p.1 := fun he => hk he.symm
      simp [lookupA, hk, hne, ih]

theorem keys_eraseA_sublist {κ α : Type} [DecidableEq κ] (m : List (κ × α)) (k : κ) :
    ((eraseA m k).map Prod.fst).Sublist (m.map Prod.fst) := by
  induction m with
  | nil => simp [eraseA]
  | cons p rest ih =>
    by_cases hk : p.1 = k
    · rw [show eraseA (p :: rest) k = rest from by simp [eraseA, hk]]
      simp
    · rw [show eraseA (p :: rest) k = p :: eraseA rest k from by simp [eraseA, hk]]
      simpa using ih

theorem eraseA_of_lookup_none {κ α : Type} [DecidableEq κ] (m : List (κ × α)) (k : κ)
    (h : lookupA m k = none) : eraseA m k = m := by
  induction m with
  | nil => rfl
  | cons p rest ih =>
    by_cases hk : p.1 = k
    · simp [lookupA, hk] at h
    · have h' : lookupA rest k = none := by simpa [lookupA, hk] using h
      simp [eraseA, hk, ih h']

theorem lookupA_append_some {κ α : Type} [DecidableEq κ] (m l : List (κ × α)) (k : κ)
    (v : α) (h : lookupA m k = some v) : lookupA (m ++ l) k = some v := by
  induction m with
  | nil => simp [lookupA] at h
  | cons p rest ih =>
    by_cases hk : p.1 = k
    · simp only [lookupA, hk, if_pos] at h
      simpa [lookupA, hk] using h
    · have h' : lookupA rest k = some v := by simpa [lookupA, hk] using h
      simpa [lookupA, hk] using ih h'

theorem lookupA_append_of_none {κ α : Type} [DecidableEq κ] (m l : List (κ × α)) (k : κ)
    (h : lookupA m k = none) : lookupA (m ++ l) k = lookupA l k := by
  induction m with
  | nil => simp
  | cons p rest ih =>
    by_cases hk : p.1 = k
    · simp [lookupA, hk] at h
    · have h' : lookupA rest k = none := by simpa [lookupA, hk] using h
      simpa [lookupA, hk] using ih h'

theorem lookupA_map_values {κ α β : Type} [DecidableEq κ] (m : List (κ × α)) (g : α → β)
    (k : κ) : lookupA (m.map (fun kv => (kv.1, g kv.2))) k = (lookupA m k).map g := by
  induction m with
  | nil => simp [lookupA]
  | cons p rest ih =>
    by_cases hk : p.1 = k
    · simp [lookupA, hk]
    · simp [lookupA, hk, ih]

theorem mem_enqueuePayment (q : List (Int × List String)) (due : Int) (pid : String) :
    ∀ kids ∈ enqueuePayment q due pid, kids.1 = due ∨ kids ∈ q := by
  induction q with
  | nil =>
    intro kids h
    simp [enqueuePayment] at h
    simp [h]
  | cons hd rest ih =>
    intro kids h
    obtain ⟨d, ids⟩ := hd
    by_cases h1 : due < d
    · rcases (by simpa [enqueuePayment, h1] using h :
        kids = (due, [pid]) ∨ kids = (d, ids) ∨ kids ∈ rest) with h2 | h2 | h2
      · simp [h2]
      · simp [h2]
      · exact Or.inr (List.mem_cons_of_mem _ h2)
    · by_cases h2 : due = d
      · rcases (by simpa [enqueuePayment, h1, h2] using h :
          kids = (d, ids ++ [pid]) ∨ kids ∈ rest) with h3 | h3
        · left
          rw [h3]
          exact h2.symm
        · exact Or.inr (List.mem_cons_of_mem _ h3)
      · rcases (by simpa [enqueuePayment, h1, h2] using h :
          kids = (d, ids) ∨ kids ∈ enqueuePayment rest due pid) with h3 | h3
        · exact Or.inr (h3 ▸ List.mem_cons_self _ _)
        · rcases ih kids h3 with h4 | h4
          · exact Or.inl h4
          · exact Or.inr (List.mem_cons_of_mem _ h4)

theorem ids_enqueuePayment (q : List (Int × List String)) (due : Int) (pid : String) :
    ∀ kids ∈ enqueuePayment q due pid, ∀ x ∈ kids.2,
      (x = pid ∧ kids.1 = due) ∨ ∃ ids0, (kids.1, ids0) ∈ q ∧ x ∈ ids0 := by
  induction q with
  | nil =>
    intro kids h x hx
    simp [enqueuePayment] at h
    rw [h] at hx ⊢
    simp at hx
    simp [hx]
  | cons hd rest ih =>
    intro kids h x hx
    obtain ⟨d, ids⟩ := hd
    by_cases h1 : due < d
    · rcases (by simpa [enqueuePayment, h1] using h :
        kids = (due, [pid]) ∨ kids = (d, ids) ∨ kids ∈ rest) with h2 | h2 | h2
      · rw [h2] at hx ⊢
        simp at hx
        simp [hx]
      · rw [h2] at hx ⊢
        exact Or.inr ⟨ids, List.mem_cons_self _ _, hx⟩
      · exact Or.inr ⟨kids.2, List.mem_cons_of_mem _ (by simpa using h2), hx⟩
    · by_cases h2 : due = d
      · rcases (by simpa [enqueuePayment, h1, h2] using h :
          kids = (d, ids ++ [pid]) ∨ kids ∈ rest) with h3 | h3
        · rw [h3] at hx ⊢
          rcases List.mem_append.mp hx with h4 | h4
          · exact Or.inr ⟨ids, List.mem_cons_self _ _, h4⟩
          · left
            exact ⟨by simpa using h4, h2.symm ▸ rfl⟩
        · exact Or.inr ⟨kids.2, List.mem_cons_of_mem _ (by simpa using h3), hx⟩
      · rcases (by simpa [enqueuePayment, h1, h2] using h :
          kids = (d, ids) ∨ kids ∈ enqueuePayment rest due pid) with h3 | h3
        · rw [h3] at hx ⊢
          exact Or.inr ⟨ids, List.mem_cons_self _ _, hx⟩
        · rcases ih kids h3 x hx with h4 | h4
          · exact Or.inl h4
          · obtain ⟨ids0, h5, h6⟩ := h4
            exact Or.inr ⟨ids0, List.mem_cons_of_mem _ h5, h6⟩

theorem sorted_enqueuePayment (q : List (Int × List String)) (due : Int) (pid : String)
    (hs : List.Pairwise (fun x y : Int × List String => x.1 < y.1) q) :
    List.Pairwise (fun x y : Int × List String => x.1 < y.1)
      (enqueuePayment q due pid) := by
  induction q with
  | nil => simp [enqueuePayment]
  | cons hd rest ih =>
    obtain ⟨d, ids⟩ := hd
    rw [List.pairwise_cons] at hs
    by_cases h1 : due < d
    · rw [show enqueuePayment ((d, ids) :: rest) due pid =
          (due, [pid]) :: (d, ids) :: rest from by simp [enqueuePayment, h1]]
      rw [List.pairwise_cons]
      constructor
      · intro y hy
        rcases List.mem_cons.mp hy with h2 | h2
        · rw [h2]
          exact h1
        · exact lt_trans h1 (hs.1 y h2)
      · rw [List.pairwise_cons]
        exact hs
    · by_cases h2 : due = d
      · rw [show enqueuePayment ((d, ids) :: rest) due pid =
            (d, ids ++ [pid]) :: rest from by simp [enqueuePayment, h1, h2]]
        rw [List.pairwise_cons]
        exact ⟨fun y hy => hs.1 y hy, hs.2⟩
      · rw [show enqueuePayment ((d, ids) :: rest) due pid =
            (d, ids) :: enqueuePayment rest due pid from by simp [enqueuePayment, h1, h2]]
        rw [List.pairwise_cons]
        constructor
        · intro y hy
          rcases mem_enqueuePayment rest due pid y hy with h3 | h3
          · rw [h3]
            omega
          · exact hs.1 y h3
        · exact ih hs.2

/-! ## Frame lemmas for the drain (infrastructure for C1) -/

theorem processPayment_frame (s : Bank) (pid : String) :
    (processPayment s pid).dueTimeToPaymentIds = s.dueTimeToPaymentIds ∧
    (processPayment s pid).nextPaymentOrdinal = s.nextPaymentOrdinal ∧
    (processPayment s pid).accountCreationTime = s.accountCreationTime ∧
    (processPayment s pid).mergedInto = s.mergedInto ∧
    (processPayment s pid).creationTimes = s.creationTimes ∧
    (processPayment s pid).accountBalances.map Prod.fst = s.accountBalances.map Prod.fst ∧
    (processPayment s pid).paymentById.map Prod.fst = s.paymentById.map Prod.fst := by
  rcases hL : lookupA s.paymentById pid with _ | info
  · simp [processPayment, hL]
  · by_cases hc : info.canceled
    · simp [processPayment, hL, hc]
    · rcases hO : lookupA s.accountBalances info.accountId with _ | bal
      · simp [processPayment, hL, hc, hO]
      · by_cases hf : info.amount ≤ bal
        · refine ⟨?_, ?_, ?_, ?_, ?_, ?_, ?_⟩ <;>
            simp [processPayment, hL, hc, hO, hf, pushEvent,
              keys_setA_of_lookup _ _ _ _ hO, keys_setA_of_lookup _ _ _ _ hL]
        · refine ⟨?_, ?_, ?_, ?_, ?_, ?_, ?_⟩ <;>
            simp [processPayment, hL, hc, hO, hf,
              keys_setA_of_lookup _ _ _ _ hL]

theorem processPayment_lookup_pres (s : Bank) (pid j : String) (info' : PaymentInfo)
    (h : lookupA (processPayment s pid).paymentById j = some info') :
    ∃ info, lookupA s.paymentById j = some info ∧ info'.accountId = info.accountId ∧
      info'.amount = info.amount ∧ info'.dueTimestamp = info.dueTimestamp ∧
      info'.canceled = info.canceled := by
  rcases hL : lookupA s.paymentById pid with _ | info
  · rw [show (processPayment s pid).paymentById = s.paymentById from by simp [processPayment, hL]] at h
    exact ⟨info', h, rfl, rfl, rfl, rfl⟩
  · by_cases hc : info.canceled
    · rw [show (processPayment s pid).paymentById = s.paymentById from by simp [processPayment, hL, hc]] at h
      exact ⟨info', h, rfl, rfl, rfl, rfl⟩
    · rcases hO : lookupA s.accountBalances info.accountId with _ | bal
      · rw [show (processPayment s pid).paymentById = s.paymentById from by simp [processPayment, hL, hc, hO]] at h
        exact ⟨info', h, rfl, rfl, rfl, rfl⟩
      · have hpb : (processPayment s pid).paymentById =
            setA s.paymentById pid { info with processed := true } := by
          by_cases hf : info.amount ≤ bal <;> simp [processPayment, hL, hc, hO, hf, pushEvent]
        rw [hpb] at h
        by_cases hj : j = pid
        · rw [hj, lookupA_setA_self] at h
          cases h
          exact ⟨info, by rw [hj]; exact hL, rfl, rfl, rfl, rfl⟩
        · rw [lookupA_setA_ne _ _ _ _ hj] at h
          exact ⟨info', h, rfl, rfl, rfl, rfl⟩

theorem processPayment_events (s : Bank) (pid j : String) :
    eventsOf (processPayment s pid) j = eventsOf s j ∨
    ∃ info bal, lookupA s.paymentById pid = some info ∧ info.canceled = false ∧
      j = info.accountId ∧ lookupA s.accountBalances j = some bal ∧
      eventsOf (processPayment s pid) j =
        eventsOf s j ++ [(info.dueTimestamp, -info.amount)] := by
  rcases hL : lookupA s.paymentById pid with _ | info
  · left
    simp [eventsOf, processPayment, hL]
  · by_cases hc : info.canceled
    · left
      simp [eventsOf, processPayment, hL, hc]
    · rcases hO : lookupA s.accountBalances info.accountId with _ | bal
      · left
        simp [eventsOf, processPayment, hL, hc, hO]
      · by_cases hf : info.amount ≤ bal
        · by_cases hj : j = info.accountId
          · right
            refine ⟨info, bal, rfl, by simpa using hc, hj, by rw [hj]; exact hO, ?_⟩
            rw [show eventsOf (processPayment s pid) j = eventsOf (pushEvent { s with accountBalances := setA s.accountBalances info.accountId (bal - info.amount) } info.accountId info.dueTimestamp (-info.amount)) j from by simp [eventsOf, processPayment, hL, hc, hO, hf, pushEvent]]
            rw [hj, eventsOf_pushEvent_self]
            rfl
          · left
            rw [show eventsOf (processPayment s pid) j = eventsOf (pushEvent { s with accountBalances := setA s.accountBalances info.accountId (bal - info.amount) } info.accountId info.dueTimestamp (-info.amount)) j from by simp [eventsOf, processPayment, hL, hc, hO, hf, pushEvent]]
            rw [eventsOf_pushEvent_ne _ _ _ _ _ hj]
            rfl
        · left
          simp [eventsOf, processPayment, hL, hc, hO, hf]

theorem processBucket_frame (ids : List String) : ∀ s : Bank,
    (processBucket s ids).dueTimeToPaymentIds = s.dueTimeToPaymentIds ∧
    (processBucket s ids).nextPaymentOrdinal = s.nextPaymentOrdinal ∧
    (processBucket s ids).accountCreationTime = s.accountCreationTime ∧
    (processBucket s ids).mergedInto = s.mergedInto ∧
    (processBucket s ids).creationTimes = s.creationTimes ∧
    (processBucket s ids).accountBalances.map Prod.fst = s.accountBalances.map Prod.fst ∧
    (processBucket s ids).paymentById.map Prod.fst = s.paymentById.map Prod.fst := by
  induction ids with
  | nil =>
    intro s
    exact ⟨rfl, rfl, rfl, rfl, rfl, rfl, rfl⟩
  | cons pid rest ih =>
    intro s
    have h1 := processPayment_frame s pid
    have h2 := ih (processPayment s pid)
    exact ⟨h2.1.trans h1.1, h2.2.1.trans h1.2.1, h2.2.2.1.trans h1.2.2.1,
      h2.2.2.2.1.trans h1.2.2.2.1, h2.2.2.2.2.1.trans h1.2.2.2.2.1,
      h2.2.2.2.2.2.1.trans h1.2.2.2.2.2.1, h2.2.2.2.2.2.2.trans h1.2.2.2.2.2.2⟩

theorem processBucket_lookup_pres (ids : List String) : ∀ (s : Bank) (j : String)
    (info' : PaymentInfo), lookupA (processBucket s ids).paymentById j = some info' →
    ∃ info, lookupA s.paymentById j = some info ∧ info'.accountId = info.accountId ∧
      info'.amount = info.amount ∧ info'.dueTimestamp = info.dueTimestamp ∧
      info'.canceled = info.canceled := by
  induction ids with
  | nil =>
    intro s j info' h
    exact ⟨info', h, rfl, rfl, rfl, rfl⟩
  | cons pid rest ih =>
    intro s j info' h
    obtain ⟨i1, hi1, ha1, hm1, hd1, hc1⟩ := ih (processPayment s pid) j info' h
    obtain ⟨i0, hi0, ha0, hm0, hd0, hc0⟩ := processPayment_lookup_pres s pid j i1 hi1
    exact ⟨i0, hi0, ha1.trans ha0, hm1.trans hm0, hd1.trans hd0, hc1.trans hc0⟩

theorem processBucket_events (ids : List String) (k : Int) : ∀ (s : Bank),
    (∀ pid ∈ ids, ∀ info, lookupA s.paymentById pid = some info →
      info.dueTimestamp = k) →
    ∀ (j : String) (e : Int × Int), e ∈ eventsOf (processBucket s ids) j →
      e ∈ eventsOf s j ∨ e.1 = k := by
  induction ids with
  | nil =>
    intro s _ j e he
    exact Or.inl he
  | cons pid rest ih =>
    intro s hdue j e he
    have hdue' : ∀ pid' ∈ rest, ∀ info,
        lookupA (processPayment s pid).paymentById pid' = some info →
        info.dueTimestamp = k := by
      intro pid' hp info hinfo
      obtain ⟨i0, hi0, _, _, hd0, _⟩ := processPayment_lookup_pres s pid pid' info hinfo
      rw [hd0]
      exact hdue pid' (List.mem_cons_of_mem _ hp) i0 hi0
    rcases ih (processPayment s pid) hdue' j e he with h1 | h1
    · rcases processPayment_events s pid j with h2 | ⟨info, bal, hinfo, _, _, _, h2⟩
      · rw [h2] at h1
        exact Or.inl h1
      · rw [h2] at h1
        rcases List.mem_append.mp h1 with h3 | h3
        · exact Or.inl h3
        · right
          have : e = (info.dueTimestamp, -info.amount) := by simpa using h3
          rw [this]
          exact hdue pid (List.mem_cons_self _ _) info hinfo
    · exact Or.inr h1

theorem processBucket_events_absent (ids : List String) : ∀ (s : Bank) (j : String),
    lookupA s.accountBalances j = none →
    eventsOf (processBucket s ids) j = eventsOf s j ∧
    lookupA (processBucket s ids).accountBalances j = none := by
  induction ids with
  | nil =>
    intro s j h
    exact ⟨rfl, h⟩
  | cons pid rest ih =>
    intro s j h
    have habs : lookupA (processPayment s pid).accountBalances j = none := by
      rw [lookupA_eq_none_iff] at h ⊢
      rw [(processPayment_frame s pid).2.2.2.2.2.1]
      exact h
    have hev : eventsOf (processPayment s pid) j = eventsOf s j := by
      rcases processPayment_events s pid j with h2 | ⟨info, bal, _, _, hj, hbal, _⟩
      · exact h2
      · rw [hj] at hbal
        rw [hj] at h
        rw [h] at hbal
        cases hbal
    obtain ⟨h3, h4⟩ := ih (processPayment s pid) j habs
    exact ⟨h3.trans hev, h4⟩

theorem drainLoop_pres (t T : Int) : ∀ (q : List (Int × List String)) (s : Bank),
    (∀ kids ∈ q, T ≤ kids.1) →
    (∀ kids ∈ q, ∀ pid ∈ kids.2, ∀ info,
      lookupA s.paymentById pid = some info → info.dueTimestamp = kids.1) →
    (∃ qpre, q = qpre ++ (drainLoop t q s).dueTimeToPaymentIds) ∧
    ((drainLoop t q s).nextPaymentOrdinal = s.nextPaymentOrdinal ∧
      (drainLoop t q s).accountCreationTime = s.accountCreationTime ∧
      (drainLoop t q s).mergedInto = s.mergedInto ∧
      (drainLoop t q s).creationTimes = s.creationTimes ∧
      (drainLoop t q s).accountBalances.map Prod.fst = s.accountBalances.map Prod.fst ∧
      (drainLoop t q s).paymentById.map Prod.fst = s.paymentById.map Prod.fst) ∧
    (∀ j info', lookupA (drainLoop t q s).paymentById j = some info' →
      ∃ info, lookupA s.paymentById j = some info ∧ info'.accountId = info.accountId ∧
        info'.amount = info.amount ∧ info'.dueTimestamp = info.dueTimestamp ∧
        info'.canceled = info.canceled) ∧
    (∀ (j : String) (e : Int × Int), e ∈ eventsOf (drainLoop t q s) j →
      e ∈ eventsOf s j ∨ (T ≤ e.1 ∧ e.1 ≤ t)) ∧
    (∀ j, lookupA s.accountBalances j = none →
      eventsOf (drainLoop t q s) j = eventsOf s j) := by
  intro q
  induction q with
  | nil =>
    intro s _ _
    exact ⟨⟨[], rfl⟩, ⟨rfl, rfl, rfl, rfl, rfl, rfl⟩,
      fun j info' h => ⟨info', h, rfl, rfl, rfl, rfl⟩,
      fun j e he => Or.inl he, fun j _ => rfl⟩
  | cons hd rest ih =>
    intro s hbound hdue
    obtain ⟨d, ids⟩ := hd
    by_cases hle : d ≤ t
    · have hrw : drainLoop t ((d, ids) :: rest) s = drainLoop t rest (processBucket s ids) := by
        simp [drainLoop, hle]
      have hdueHead : ∀ pid ∈ ids, ∀ info, lookupA s.paymentById pid = some info →
          info.dueTimestamp = d :=
        fun pid hp info hi => hdue (d, ids) (List.mem_cons_self _ _) pid hp info hi
      have hdue' : ∀ kids ∈ rest, ∀ pid ∈ kids.2, ∀ info,
          lookupA (processBucket s ids).paymentById pid = some info →
          info.dueTimestamp = kids.1 := by
        intro kids hk pid hp info hi
        obtain ⟨i0, hi0, _, _, hd0, _⟩ := processBucket_lookup_pres ids s pid info hi
        rw [hd0]
        exact hdue kids (List.mem_cons_of_mem _ hk) pid hp i0 hi0
      have hbound' : ∀ kids ∈ rest, T ≤ kids.1 :=
        fun kids hk => hbound kids (List.mem_cons_of_mem _ hk)
      obtain ⟨⟨qpre, hqpre⟩, hframe, hpres, hev, habs⟩ :=
        ih (processBucket s ids) hbound' hdue'
      have hbf := processBucket_frame ids s
      rw [hrw]
      refine ⟨⟨(d, ids) :: qpre, by rw [List.cons_append, ← hqpre]⟩,
        ⟨hframe.1.trans hbf.2.1, hframe.2.1.trans hbf.2.2.1,
          hframe.2.2.1.trans hbf.2.2.2.1, hframe.2.2.2.1.trans hbf.2.2.2.2.1,
          hframe.2.2.2.2.1.trans hbf.2.2.2.2.2.1,
          hframe.2.2.2.2.2.trans hbf.2.2.2.2.2.2⟩, ?_, ?_, ?_⟩
      · intro j info' h
        obtain ⟨i1, hi1, ha1, hm1, hd1, hc1⟩ := hpres j info' h
        obtain ⟨i0, hi0, ha0, hm0, hd0, hc0⟩ := processBucket_lookup_pres ids s j i1 hi1
        exact ⟨i0, hi0, ha1.trans ha0, hm1.trans hm0, hd1.trans hd0, hc1.trans hc0⟩
      · intro j e he
        rcases hev j e he with h1 | h1
        · rcases processBucket_events ids d s hdueHead j e h1 with h2 | h2
          · exact Or.inl h2
          · right
            rw [h2]
            exact ⟨hbound (d, ids) (List.mem_cons_self _ _), hle⟩
        · exact Or.inr h1
      · intro j hj
        obtain ⟨h1, h2⟩ := processBucket_events_absent ids s j hj
        rw [habs j h2]
        exact h1
    · have hrw : drainLoop t ((d, ids) :: rest) s =
          { s with dueTimeToPaymentIds := (d, ids) :: rest } := by
        simp [drainLoop, hle]
      rw [hrw]
      exact ⟨⟨[], rfl⟩, ⟨rfl, rfl, rfl, rfl, rfl, rfl⟩,
        fun j info' h => ⟨info', h, rfl, rfl, rfl, rfl⟩,
        fun j e he => Or.inl he, fun j _ => rfl⟩

/-! ## The per-id lifetime invariant (claim C1) -/

/-- Correspondence between the spec's lifetime table for one id (at most one
creation, so zero or one lifetimes) and the implementation state. -/
def ShapeInv (id : String) (s : Bank) (L : List (Int × Option Int)) (T : Int) : Prop :=
  (L = [] ∧ lookupA s.accountCreationTime id = none ∧
    lookupA s.accountBalances id = none ∧ eventsOf s id = [] ∧
    lookupA s.mergedInto id = none) ∨
  (∃ c, L = [(c, none)] ∧ lookupA s.accountCreationTime id = some c ∧
    (∃ bb, lookupA s.accountBalances id = some bb) ∧
    lookupA s.mergedInto id = none ∧ c ≤ T ∧
    ∀ e ∈ eventsOf s id, c ≤ e.1 ∧ e.1 ≤ T) ∨
  (∃ c m p, L = [(c, some m)] ∧ lookupA s.accountCreationTime id = some c ∧
    lookupA s.accountBalances id = none ∧
    lookupA s.mergedInto id = some (p, m) ∧ c ≤ m ∧ m ≤ T ∧
    ∀ e ∈ eventsOf s id, c ≤ e.1 ∧ e.1 ≤ m)

/-- Invariants of a reachable state used to settle claim C1, relative to a
bound `T` dominating every operation timestamp seen so far. -/
structure C1Inv (id : String) (s : Bank) (L : List (Int × Option Int)) (T : Int) : Prop where
  sorted : List.Pairwise (fun x y : Int × List String => x.1 < y.1) s.dueTimeToPaymentIds
  queueBound : ∀ kids ∈ s.dueTimeToPaymentIds, T ≤ kids.1
  keyDue : ∀ kids ∈ s.dueTimeToPaymentIds, ∀ pid ∈ kids.2, ∀ info,
    lookupA s.paymentById pid = some info → info.dueTimestamp = kids.1
  qLive : ∀ kids ∈ s.dueTimeToPaymentIds, ∀ pid ∈ kids.2,
    ∃ info, lookupA s.paymentById pid = some info
  fresh : ∀ n : Int, s.nextPaymentOrdinal ≤ n → lookupA s.paymentById (payName n) = none
  ordPos : 1 ≤ s.nextPaymentOrdinal
  balNodup : (s.accountBalances.map Prod.fst).Nodup
  shape : ShapeInv id s L T

theorem lookupA_isSome_of_mem_keys {κ α : Type} [DecidableEq κ] (m : List (κ × α))
    (k : κ) (h : k ∈ m.map Prod.fst) : ∃ v, lookupA m k = some v := by
  rcases hl : lookupA m k with _ | v
  · exact absurd ((lookupA_eq_none_iff m k).mp hl) (fun h2 => h2 h)
  · exact ⟨v, rfl⟩

theorem drain_C1Inv (t : Int) (id : String) (s : Bank) (L : List (Int × Option Int))
    (T : Int) (hb : C1Inv id s L T) :
    C1Inv id (processDuePayments t s) L (max T t) := by
  obtain ⟨⟨qpre, hqpre⟩, hframe, hpres, hev, habs⟩ :=
    drainLoop_pres t T s.dueTimeToPaymentIds s hb.queueBound hb.keyDue
  rw [show drainLoop t s.dueTimeToPaymentIds s = processDuePayments t s from rfl]
    at hqpre hframe hpres hev habs
  have hgt : ∀ kids ∈ (processDuePayments t s).dueTimeToPaymentIds, t < kids.1 :=
    fun kids hk => drainLoop_keys_gt t s.dueTimeToPaymentIds s hb.sorted kids hk
  have hsub : ∀ kids ∈ (processDuePayments t s).dueTimeToPaymentIds,
      kids ∈ s.dueTimeToPaymentIds := by
    intro kids hk
    rw [hqpre]
    exact List.mem_append.mpr (Or.inr hk)
  refine ⟨?_, ?_, ?_, ?_, ?_, ?_, ?_, ?_⟩
  · have := hb.sorted
    rw [hqpre] at this
    exact (List.pairwise_append.mp this).2.1
  · intro kids hk
    have h1 := hb.queueBound kids (hsub kids hk)
    have h2 := hgt kids hk
    omega
  · intro kids hk pid hp info hinfo
    obtain ⟨i0, hi0, _, _, hd0, _⟩ := hpres pid info hinfo
    rw [hd0]
    exact hb.keyDue kids (hsub kids hk) pid hp i0 hi0
  · intro kids hk pid hp
    obtain ⟨i0, hi0⟩ := hb.qLive kids (hsub kids hk) pid hp
    refine lookupA_isSome_of_mem_keys _ _ ?_
    rw [hframe.2.2.2.2.2]
    exact List.mem_map.mpr ⟨(pid, i0), lookupA_mem hi0, rfl⟩
  · intro n hn
    rw [hframe.1] at hn
    rw [lookupA_eq_none_iff, hframe.2.2.2.2.2]
    exact (lookupA_eq_none_iff _ _).mp (hb.fresh n hn)
  · rw [hframe.1]
    exact hb.ordPos
  · rw [hframe.2.2.2.2.1]
    exact hb.balNodup
  · rcases hb.shape with ⟨hL, hct, hbal, hevs, hmg⟩ |
      ⟨c, hL, hct, ⟨bb, hbal⟩, hmg, hcT, hevs⟩ |
      ⟨c, m, p, hL, hct, hbal, hmg, hcm, hmT, hevs⟩
    · refine Or.inl ⟨hL, ?_, ?_, ?_, ?_⟩
      · rw [hframe.2.1]
        exact hct
      · rw [lookupA_eq_none_iff, hframe.2.2.2.2.1]
        exact (lookupA_eq_none_iff _ _).mp hbal
      · rw [habs id hbal]
        exact hevs
      · rw [hframe.2.2.1]
        exact hmg
    · refine Or.inr (Or.inl ⟨c, hL, ?_, ?_, ?_, ?_, ?_⟩)
      · rw [hframe.2.1]
        exact hct
      · have hk : id ∈ (processDuePayments t s).accountBalances.map Prod.fst := by
          rw [hframe.2.2.2.2.1]
          rcases hx : lookupA s.accountBalances id with _ | v
          · rw [hx] at hbal
            cases hbal
          · exact List.mem_map.mpr ⟨(id, v), lookupA_mem hx, rfl⟩
        exact lookupA_isSome_of_mem_keys _ _ hk
      · rw [hframe.2.2.1]
        exact hmg
      · exact le_trans hcT (le_max_left T t)
      · intro e he
        rcases hev id e he with h1 | h1
        · obtain ⟨h2, h3⟩ := hevs e h1
          exact ⟨h2, le_trans h3 (le_max_left T t)⟩
        · exact ⟨le_trans hcT h1.1, le_trans h1.2 (le_max_right T t)⟩
    · refine Or.inr (Or.inr ⟨c, m, p, hL, ?_, ?_, ?_, hcm, ?_, ?_⟩)
      · rw [hframe.2.1]
        exact hct
      · rw [lookupA_eq_none_iff, hframe.2.2.2.2.1]
        exact (lookupA_eq_none_iff _ _).mp hbal
      · rw [hframe.2.2.1]
        exact hmg
      · exact le_trans hmT (le_max_left T t)
      · rw [habs id hbal]
        exact hevs

theorem setA_of_lookup_none {κ α : Type} [DecidableEq κ] (m : List (κ × α)) (k : κ)
    (v : α) (h : lookupA m k = none) : setA m k v = m ++ [(k, v)] := by
  induction m with
  | nil => rfl
  | cons p rest ih =>
    by_cases hk : p.1 = k
    · simp [lookupA, hk] at h
    · have h' : lookupA rest k = none := by simpa [lookupA, hk] using h
      simp [setA, hk, ih h']

/-- Extract the open-lifetime disjunct when the account is in the balance
table. -/
theorem shape_open_of_some (id : String) (s : Bank) (L : List (Int × Option Int))
    (T : Int) (hs : ShapeInv id s L T) (bb : Int)
    (h : lookupA s.accountBalances id = some bb) :
    ∃ c, L = [(c, none)] ∧ lookupA s.accountCreationTime id = some c ∧
      lookupA s.mergedInto id = none ∧ c ≤ T ∧
      ∀ e ∈ eventsOf s id, c ≤ e.1 ∧ e.1 ≤ T := by
  rcases hs with ⟨_, _, hbal, _, _⟩ | ⟨c, hL, hct, _, hmg, hcT, hevs⟩ |
    ⟨c, m, p, _, _, hbal, _, _, _, _⟩
  · rw [h] at hbal
    cases hbal
  · exact ⟨c, hL, hct, hmg, hcT, hevs⟩
  · rw [h] at hbal
    cases hbal

/-- Drain at the operation's timestamp, with the bound advanced to it. -/
theorem drain_C1Inv_at (ts : Int) (id : String) (s : Bank)
    (L : List (Int × Option Int)) (T : Int) (hb : C1Inv id s L T) (hts : T ≤ ts) :
    C1Inv id (processDuePayments ts s) L ts := by
  have h := drain_C1Inv ts id s L T hb
  rwa [max_eq_right hts] at h

theorem stepGetBalance_C1Inv (id j : String) (ts t0 : Int) (s : Bank)
    (Lm : List (String × List (Int × Option Int))) (T : Int)
    (hb : C1Inv id s ((lookupA Lm id).getD []) T) (hts : T ≤ ts) :
    C1Inv id (lifeStep (s, Lm) (Op.getBalance ts j t0)).1
      ((lookupA (lifeStep (s, Lm) (Op.getBalance ts j t0)).2 id).getD []) ts :=
  drain_C1Inv_at ts id s _ T hb hts

theorem stepCancel_C1Inv (id j pid : String) (ts : Int) (s : Bank)
    (Lm : List (String × List (Int × Option Int))) (T : Int)
    (hb : C1Inv id s ((lookupA Lm id).getD []) T) (hts : T ≤ ts) :
    C1Inv id (lifeStep (s, Lm) (Op.cancel ts j pid)).1
      ((lookupA (lifeStep (s, Lm) (Op.cancel ts j pid)).2 id).getD []) ts := by
  have hb1 := drain_C1Inv_at ts id s _ T hb hts
  show C1Inv id (CancelPayment ts j pid s).2 _ ts
  rcases hL : lookupA (processDuePayments ts s).paymentById pid with _ | info
  · rw [show (CancelPayment ts j pid s).2 = processDuePayments ts s from by
      simp [CancelPayment, hL]]
    exact hb1
  · by_cases hc : info.canceled
    · rw [show (CancelPayment ts j pid s).2 = processDuePayments ts s from by
        simp [CancelPayment, hL, hc]]
      exact hb1
    · by_cases hpr : info.processed
      · rw [show (CancelPayment ts j pid s).2 = processDuePayments ts s from by
          simp [CancelPayment, hL, hc, hpr]]
        exact hb1
      · by_cases hacct : info.accountId = j
        · have hs2 : (CancelPayment ts j pid s).2 = { processDuePayments ts s with paymentById := setA (processDuePayments ts s).paymentById pid { info with canceled := true } } := by
            simp [CancelPayment, hL, hc, hpr, hacct]
          rw [hs2]
          have hkeys : (setA (processDuePayments ts s).paymentById pid { info with canceled := true }).map Prod.fst = (processDuePayments ts s).paymentById.map Prod.fst :=
            keys_setA_of_lookup _ _ _ _ hL
          have hlook : ∀ (x : String) (i' : PaymentInfo),
              lookupA (setA (processDuePayments ts s).paymentById pid { info with canceled := true }) x = some i' →
              ∃ i, lookupA (processDuePayments ts s).paymentById x = some i ∧
                i'.dueTimestamp = i.dueTimestamp := by
            intro x i' hx
            by_cases hxp : x = pid
            · rw [hxp, lookupA_setA_self] at hx
              cases hx
              exact ⟨info, hxp ▸ hL, rfl⟩
            · rw [lookupA_setA_ne _ _ _ _ hxp] at hx
              exact ⟨i', hx, rfl⟩
          refine ⟨hb1.sorted, hb1.queueBound, ?_, ?_, ?_, hb1.ordPos, hb1.balNodup, ?_⟩
          · intro kids hk x hx i' hi'
            obtain ⟨i, hi, hdue⟩ := hlook x i' hi'
            rw [hdue]
            exact hb1.keyDue kids hk x hx i hi
          · intro kids hk x hx
            obtain ⟨i, hi⟩ := hb1.qLive kids hk x hx
            refine lookupA_isSome_of_mem_keys _ _ ?_
            rw [hkeys]
            exact List.mem_map.mpr ⟨(x, i), lookupA_mem hi, rfl⟩
          · intro n hn
            rw [lookupA_eq_none_iff, hkeys]
            exact (lookupA_eq_none_iff _ _).mp (hb1.fresh n hn)
          · exact hb1.shape
        · rw [show (CancelPayment ts j pid s).2 = processDuePayments ts s from by
            simp [CancelPayment, hL, hc, hpr, hacct]]
          exact hb1

theorem ShapeInv_transfer (id : String) (s s' : Bank) (L : List (Int × Option Int))
    (T T' : Int) (hs : ShapeInv id s L T) (hT : T ≤ T')
    (hct : lookupA s'.accountCreationTime id = lookupA s.accountCreationTime id)
    (hbal : lookupA s'.accountBalances id = lookupA s.accountBalances id)
    (hmg : lookupA s'.mergedInto id = lookupA s.mergedInto id)
    (hev : eventsOf s' id = eventsOf s id) :
    ShapeInv id s' L T' := by
  rcases hs with ⟨hL, h1, h2, h3, h4⟩ | ⟨c, hL, h1, h2, h3, h4, h5⟩ |
    ⟨c, m, p, hL, h1, h2, h3, h4, h5, h6⟩
  · exact Or.inl ⟨hL, hct.trans h1, hbal.trans h2, hev.trans h3, hmg.trans h4⟩
  · refine Or.inr (Or.inl ⟨c, hL, hct.trans h1, ?_, hmg.trans h3, le_trans h4 hT, ?_⟩)
    · obtain ⟨bb, hbb⟩ := h2
      exact ⟨bb, hbal.trans hbb⟩
    · intro e he
      rw [hev] at he
      obtain ⟨ha, hb⟩ := h5 e he
      exact ⟨ha, le_trans hb hT⟩
  · refine Or.inr (Or.inr ⟨c, m, p, hL, hct.trans h1, hbal.trans h2, hmg.trans h3,
      h4, le_trans h5 hT, ?_⟩)
    intro e he
    rw [hev] at he
    exact h6 e he

theorem C1Inv_queue_transfer (id : String) (s s' : Bank)
    (L L' : List (Int × Option Int)) (T : Int) (hb : C1Inv id s L T)
    (hq : s'.dueTimeToPaymentIds = s.dueTimeToPaymentIds)
    (hord : s'.nextPaymentOrdinal = s.nextPaymentOrdinal)
    (hpay : s'.paymentById = s.paymentById)
    (hnodup : (s'.accountBalances.map Prod.fst).Nodup)
    (hshape : ShapeInv id s' L' T) :
    C1Inv id s' L' T := by
  refine ⟨?_, ?_, ?_, ?_, ?_, ?_, hnodup, hshape⟩
  · rw [hq]
    exact hb.sorted
  · rw [hq]
    exact hb.queueBound
  · rw [hq, hpay]
    exact hb.keyDue
  · rw [hq, hpay]
    exact hb.qLive
  · rw [hord, hpay]
    exact hb.fresh
  · rw [hord]
    exact hb.ordPos

theorem stepCreate_C1Inv (id j : String) (ts : Int) (s : Bank)
    (Lm : List (String × List (Int × Option Int))) (T : Int)
    (hb : C1Inv id s ((lookupA Lm id).getD []) T) (hts : T ≤ ts)
    (honce : j = id → (lookupA Lm id).getD [] = []) :
    C1Inv id (lifeStep (s, Lm) (Op.create ts j)).1
      ((lookupA (lifeStep (s, Lm) (Op.create ts j)).2 id).getD []) ts := by
  have hb1 := drain_C1Inv_at ts id s _ T hb hts
  rcases hL : lookupA (processDuePayments ts s).accountBalances j with _ | bal
  · -- creation succeeds
    have h1 : (CreateAccount ts j s).1 = true := by
      simp [CreateAccount, hL]
    have hs2 : (CreateAccount ts j s).2 = { processDuePayments ts s with
        accountBalances := setA (processDuePayments ts s).accountBalances j 0,
        creationTimes := setA (processDuePayments ts s).creationTimes j ((lookupA (processDuePayments ts s).creationTimes j).getD [] ++ [ts]),
        accountCreationTime := setA (processDuePayments ts s).accountCreationTime j ((lookupA (processDuePayments ts s).accountCreationTime j).getD ts),
        balanceEvents := setA (processDuePayments ts s).balanceEvents j (eventsOf (processDuePayments ts s) j ++ [(ts, 0)]),
        mergedInto := eraseA (processDuePayments ts s).mergedInto j } := by
      simp [CreateAccount, hL, pushEvent, eventsOf]
    have hstep : lifeStep (s, Lm) (Op.create ts j) =
        ((CreateAccount ts j s).2, setA Lm j ((lookupA Lm j).getD [] ++ [(ts, none)])) := by
      simp [lifeStep, h1]
    rw [hstep]
    have hjkeys : j ∉ (processDuePayments ts s).accountBalances.map Prod.fst :=
      (lookupA_eq_none_iff _ _).mp hL
    have hnodup : ((CreateAccount ts j s).2.accountBalances.map Prod.fst).Nodup := by
      rw [hs2]
      show ((setA (processDuePayments ts s).accountBalances j 0).map Prod.fst).Nodup
      rw [setA_of_lookup_none _ _ _ hL, List.map_append, List.nodup_append]
      refine ⟨hb1.balNodup, List.nodup_singleton j, ?_⟩
      intro x hx hx2
      simp at hx2
      rw [hx2] at hx
      exact hjkeys hx
    by_cases hji : j = id
    · subst hji
      have hLnil : (lookupA Lm j).getD [] = [] := honce rfl
      have hL' : (lookupA (setA Lm j ((lookupA Lm j).getD [] ++ [(ts, none)])) j).getD [] =
          [(ts, none)] := by
        rw [lookupA_setA_self, hLnil]
        rfl
      rw [hL']
      rcases hb1.shape with ⟨_, hct, hbal, hev, hmg⟩ | ⟨c, hLc, _, _, _, _, _⟩ |
        ⟨c, m, p, hLc, _, _, _, _, _, _⟩
      · refine C1Inv_queue_transfer j (processDuePayments ts s) _ _ _ ts hb1
          (by rw [hs2]) (by rw [hs2]) (by rw [hs2]) hnodup ?_
        refine Or.inr (Or.inl ⟨ts, rfl, ?_, ?_, ?_, le_refl ts, ?_⟩)
        · rw [hs2]
          show lookupA (setA (processDuePayments ts s).accountCreationTime j ((lookupA (processDuePayments ts s).accountCreationTime j).getD ts)) j = some ts
          rw [lookupA_setA_self, hct]
          rfl
        · rw [hs2]
          exact ⟨0, lookupA_setA_self _ _ _⟩
        · rw [hs2]
          show lookupA (eraseA (processDuePayments ts s).mergedInto j) j = none
          rw [eraseA_of_lookup_none _ _ hmg]
          exact hmg
        · rw [hs2]
          show ∀ e ∈ (lookupA (setA (processDuePayments ts s).balanceEvents j (eventsOf (processDuePayments ts s) j ++ [(ts, 0)])) j).getD [], ts ≤ e.1 ∧ e.1 ≤ ts
          rw [lookupA_setA_self]
          intro e he
          rw [show ((some (eventsOf (processDuePayments ts s) j ++ [(ts, 0)])).getD []) = eventsOf (processDuePayments ts s) j ++ [(ts, 0)] from rfl, hev] at he
          simp at he
          rw [he]
          exact ⟨le_refl ts, le_refl ts⟩
      · rw [hLnil] at hLc
        cases hLc
      · rw [hLnil] at hLc
        cases hLc
    · have hL' : (lookupA (setA Lm j ((lookupA Lm j).getD [] ++ [(ts, none)])) id).getD [] =
          (lookupA Lm id).getD [] := by
        rw [lookupA_setA_ne _ _ _ _ (fun he => hji he.symm)]
      rw [hL']
      refine C1Inv_queue_transfer id (processDuePayments ts s) _ _ _ ts hb1
        (by rw [hs2]) (by rw [hs2]) (by rw [hs2]) hnodup ?_
      have hid : id ≠ j := fun he => hji he.symm
      refine ShapeInv_transfer id (processDuePayments ts s) _ _ ts ts hb1.shape le_rfl ?_ ?_ ?_ ?_
      · rw [hs2]
        exact lookupA_setA_ne _ _ _ _ hid
      · rw [hs2]
        exact lookupA_setA_ne _ _ _ _ hid
      · rw [hs2]
        exact lookupA_eraseA_ne _ _ _ hid
      · rw [hs2]
        show (lookupA (setA (processDuePayments ts s).balanceEvents j (eventsOf (processDuePayments ts s) j ++ [(ts, 0)])) id).getD [] = eventsOf (processDuePayments ts s) id
        rw [lookupA_setA_ne _ _ _ _ hid]
        rfl
  · -- creation fails: account already active
    have h1 : (CreateAccount ts j s).1 = false := by
      simp [CreateAccount, hL]
    have h2 : (CreateAccount ts j s).2 = processDuePayments ts s := by
      simp [CreateAccount, hL]
    have hstep : lifeStep (s, Lm) (Op.create ts j) = ((CreateAccount ts j s).2, Lm) := by
      simp [lifeStep, h1]
    rw [hstep, h2]
    exact hb1

theorem stepDeposit_C1Inv (id j : String) (ts a : Int) (s : Bank)
    (Lm : List (String × List (Int × Option Int))) (T : Int)
    (hb : C1Inv id s ((lookupA Lm id).getD []) T) (hts : T ≤ ts) :
    C1Inv id (lifeStep (s, Lm) (Op.deposit ts j a)).1
      ((lookupA (lifeStep (s, Lm) (Op.deposit ts j a)).2 id).getD []) ts := by
  have hb1 := drain_C1Inv_at ts id s _ T hb hts
  show C1Inv id (Deposit ts j a s).2 ((lookupA Lm id).getD []) ts
  rcases hL : lookupA (processDuePayments ts s).accountBalances j with _ | bal
  · rw [show (Deposit ts j a s).2 = processDuePayments ts s from by simp [Deposit, hL]]
    exact hb1
  · have hs2 : (Deposit ts j a s).2 = { processDuePayments ts s with
        accountBalances := setA (processDuePayments ts s).accountBalances j (bal + a),
        balanceEvents := setA (processDuePayments ts s).balanceEvents j (eventsOf (processDuePayments ts s) j ++ [(ts, a)]) } := by
      simp [Deposit, hL, pushEvent, eventsOf]
    have hnodup : ((Deposit ts j a s).2.accountBalances.map Prod.fst).Nodup := by
      rw [hs2]
      show ((setA (processDuePayments ts s).accountBalances j (bal + a)).map Prod.fst).Nodup
      rw [keys_setA_of_lookup _ _ _ _ hL]
      exact hb1.balNodup
    by_cases hji : j = id
    · subst hji
      obtain ⟨c, hLc, hct, hmg, hcle, hevb⟩ :=
        shape_open_of_some j (processDuePayments ts s) _ ts hb1.shape bal hL
      refine C1Inv_queue_transfer j (processDuePayments ts s) _ _ _ ts hb1
        (by rw [hs2]) (by rw [hs2]) (by rw [hs2]) hnodup ?_
      refine Or.inr (Or.inl ⟨c, hLc, ?_, ?_, ?_, hcle, ?_⟩)
      · rw [hs2]
        exact hct
      · rw [hs2]
        exact ⟨bal + a, lookupA_setA_self _ _ _⟩
      · rw [hs2]
        exact hmg
      · rw [hs2]
        show ∀ e ∈ (lookupA (setA (processDuePayments ts s).balanceEvents j (eventsOf (processDuePayments ts s) j ++ [(ts, a)])) j).getD [], c ≤ e.1 ∧ e.1 ≤ ts
        rw [lookupA_setA_self]
        intro e he
        rcases List.mem_append.mp he with h1 | h1
        · exact hevb e h1
        · have : e = (ts, a) := by simpa using h1
          rw [this]
          exact ⟨hcle, le_refl ts⟩
    · have hid : id ≠ j := fun he => hji he.symm
      refine C1Inv_queue_transfer id (processDuePayments ts s) _ _ _ ts hb1
        (by rw [hs2]) (by rw [hs2]) (by rw [hs2]) hnodup ?_
      refine ShapeInv_transfer id (processDuePayments ts s) _ _ ts ts hb1.shape le_rfl ?_ ?_ ?_ ?_
      · rw [hs2]
      · rw [hs2]
        exact lookupA_setA_ne _ _ _ _ hid
      · rw [hs2]
      · rw [hs2]
        show (lookupA (setA (processDuePayments ts s).balanceEvents j (eventsOf (processDuePayments ts s) j ++ [(ts, a)])) id).getD [] = eventsOf (processDuePayments ts s) id
        rw [lookupA_setA_ne _ _ _ _ hid]
        rfl

theorem stepTransfer_C1Inv (id src dst : String) (ts a : Int) (s : Bank)
    (Lm : List (String × List (Int × Option Int))) (T : Int)
    (hb : C1Inv id s ((lookupA Lm id).getD []) T) (hts : T ≤ ts) :
    C1Inv id (lifeStep (s, Lm) (Op.transfer ts src dst a)).1
      ((lookupA (lifeStep (s, Lm) (Op.transfer ts src dst a)).2 id).getD []) ts := by
  have hb1 := drain_C1Inv_at ts id s _ T hb hts
  show C1Inv id (Transfer ts src dst a s).2 ((lookupA Lm id).getD []) ts
  by_cases hsd : src = dst
  · rw [show (Transfer ts src dst a s).2 = processDuePayments ts s from by
      simp [Transfer, hsd]]
    exact hb1
  rcases hS : lookupA (processDuePayments ts s).accountBalances src with _ | bs
  · rw [show (Transfer ts src dst a s).2 = processDuePayments ts s from by
      simp [Transfer, hsd, hS]]
    exact hb1
  rcases hT2 : lookupA (processDuePayments ts s).accountBalances dst with _ | bt
  · rw [show (Transfer ts src dst a s).2 = processDuePayments ts s from by
      simp [Transfer, hsd, hS, hT2]]
    exact hb1
  by_cases hlt : bs < a
  · rw [show (Transfer ts src dst a s).2 = processDuePayments ts s from by
      simp [Transfer, hsd, hS, hT2, hlt]]
    exact hb1
  -- success path
  have hds : dst ≠ src := fun he => hsd he.symm
  have hq : (Transfer ts src dst a s).2.dueTimeToPaymentIds =
      (processDuePayments ts s).dueTimeToPaymentIds := by
    simp [Transfer, hsd, hS, hT2, hlt, pushEvent]
  have hord : (Transfer ts src dst a s).2.nextPaymentOrdinal =
      (processDuePayments ts s).nextPaymentOrdinal := by
    simp [Transfer, hsd, hS, hT2, hlt, pushEvent]
  have hpay : (Transfer ts src dst a s).2.paymentById =
      (processDuePayments ts s).paymentById := by
    simp [Transfer, hsd, hS, hT2, hlt, pushEvent]
  have hct : (Transfer ts src dst a s).2.accountCreationTime =
      (processDuePayments ts s).accountCreationTime := by
    simp [Transfer, hsd, hS, hT2, hlt, pushEvent]
  have hmg : (Transfer ts src dst a s).2.mergedInto =
      (processDuePayments ts s).mergedInto := by
    simp [Transfer, hsd, hS, hT2, hlt, pushEvent]
  have hbal : (Transfer ts src dst a s).2.accountBalances =
      setA (setA (processDuePayments ts s).accountBalances src (bs - a)) dst (bt + a) := by
    simp [Transfer, hsd, hS, hT2, hlt, pushEvent]
  have hbe : (Transfer ts src dst a s).2.balanceEvents = (pushEvent (pushEvent { processDuePayments ts s with accountBalances := setA (setA (processDuePayments ts s).accountBalances src (bs - a)) dst (bt + a) } src ts (-a)) dst ts a).balanceEvents := by
    simp [Transfer, hsd, hS, hT2, hlt]
  have hevgen : ∀ x : String, eventsOf (Transfer ts src dst a s).2 x =
      (if x = dst then eventsOf (processDuePayments ts s) x ++ [(ts, a)]
        else if x = src then eventsOf (processDuePayments ts s) x ++ [(ts, -a)]
        else eventsOf (processDuePayments ts s) x) := by
    intro x
    have hex : eventsOf (Transfer ts src dst a s).2 x = eventsOf (pushEvent (pushEvent { processDuePayments ts s with accountBalances := setA (setA (processDuePayments ts s).accountBalances src (bs - a)) dst (bt + a) } src ts (-a)) dst ts a) x := by
      show (lookupA (Transfer ts src dst a s).2.balanceEvents x).getD [] = _
      rw [hbe]
      rfl
    rw [hex]
    by_cases hx1 : x = dst
    · rw [hx1, eventsOf_pushEvent_self, eventsOf_pushEvent_ne _ _ _ _ _ hds]
      simp [hx1]
      rfl
    · rw [eventsOf_pushEvent_ne _ _ _ _ _ hx1]
      by_cases hx2 : x = src
      · rw [hx2, eventsOf_pushEvent_self]
        simp [hsd]
        rfl
      · rw [eventsOf_pushEvent_ne _ _ _ _ _ hx2]
        simp [hx1, hx2]
        rfl
  have hnodup : ((Transfer ts src dst a s).2.accountBalances.map Prod.fst).Nodup := by
    rw [hbal, keys_setA_of_lookup _ _ _ _ (by rw [lookupA_setA_ne _ _ _ _ hds]; exact hT2),
      keys_setA_of_lookup _ _ _ _ hS]
    exact hb1.balNodup
  refine C1Inv_queue_transfer id (processDuePayments ts s) _ _ _ ts hb1 hq hord hpay hnodup ?_
  rcases hx : lookupA (processDuePayments ts s).accountBalances id with _ | bid
  · -- id is not active, hence neither src nor dst
    have hisrc : id ≠ src := by
      intro he
      rw [he, hS] at hx
      cases hx
    have hidst : id ≠ dst := by
      intro he
      rw [he, hT2] at hx
      cases hx
    refine ShapeInv_transfer id (processDuePayments ts s) _ _ ts ts hb1.shape le_rfl ?_ ?_ ?_ ?_
    · rw [hct]
    · rw [hbal, lookupA_setA_ne _ _ _ _ hidst, lookupA_setA_ne _ _ _ _ hisrc]
    · rw [hmg]
    · rw [hevgen id]
      simp [fun h => hidst h, fun h => hisrc h]
  · obtain ⟨c, hLc, hctid, hmgid, hcle, hevb⟩ :=
      shape_open_of_some id (processDuePayments ts s) _ ts hb1.shape bid hx
    refine Or.inr (Or.inl ⟨c, hLc, ?_, ?_, ?_, hcle, ?_⟩)
    · rw [hct]
      exact hctid
    · rw [hbal]
      by_cases hdid : id = dst
      · rw [hdid, lookupA_setA_self]
        exact ⟨bt + a, rfl⟩
      · rw [lookupA_setA_ne _ _ _ _ hdid]
        by_cases hsid : id = src
        · rw [hsid, lookupA_setA_self]
          exact ⟨bs - a, rfl⟩
        · rw [lookupA_setA_ne _ _ _ _ hsid]
          exact ⟨bid, hx⟩
    · rw [hmg]
      exact hmgid
    · rw [hevgen id]
      by_cases hdid : id = dst
      · rw [if_pos hdid]
        intro e he
        rcases List.mem_append.mp he with h1 | h1
        · exact hevb e h1
        · have : e = (ts, a) := by simpa using h1
          rw [this]
          exact ⟨hcle, le_refl ts⟩
      · rw [if_neg hdid]
        by_cases hsid : id = src
        · rw [if_pos hsid]
          intro e he
          rcases List.mem_append.mp he with h1 | h1
          · exact hevb e h1
          · have : e = (ts, -a) := by simpa using h1
            rw [this]
            exact ⟨hcle, le_refl ts⟩
        · rw [if_neg hsid]
          exact hevb

theorem stepSchedule_C1Inv (id j : String) (ts amt d : Int) (s : Bank)
    (Lm : List (String × List (Int × Option Int))) (T : Int)
    (hb : C1Inv id s ((lookupA Lm id).getD []) T) (hts : T ≤ ts) (hdel : 0 ≤ d) :
    C1Inv id (lifeStep (s, Lm) (Op.schedule ts j amt d)).1
      ((lookupA (lifeStep (s, Lm) (Op.schedule ts j amt d)).2 id).getD []) ts := by
  have hb1 := drain_C1Inv_at ts id s _ T hb hts
  show C1Inv id (SchedulePayment ts j amt d s).2 ((lookupA Lm id).getD []) ts
  rcases hL : lookupA (processDuePayments ts s).accountBalances j with _ | bal
  · rw [show (SchedulePayment ts j amt d s).2 = processDuePayments ts s from by
      simp [SchedulePayment, hL]]
    exact hb1
  · have hfresh : lookupA (processDuePayments ts s).paymentById
        (payName (processDuePayments ts s).nextPaymentOrdinal) = none :=
      hb1.fresh _ le_rfl
    have hq : (SchedulePayment ts j amt d s).2.dueTimeToPaymentIds =
        enqueuePayment (processDuePayments ts s).dueTimeToPaymentIds (ts + d)
          (payName (processDuePayments ts s).nextPaymentOrdinal) := by
      simp [SchedulePayment, hL]
    have hord : (SchedulePayment ts j amt d s).2.nextPaymentOrdinal =
        (processDuePayments ts s).nextPaymentOrdinal + 1 := by
      simp [SchedulePayment, hL]
    have hpay : (SchedulePayment ts j amt d s).2.paymentById =
        (processDuePayments ts s).paymentById ++
          [(payName (processDuePayments ts s).nextPaymentOrdinal,
            ⟨j, amt, ts + d, false, false, (processDuePayments ts s).nextPaymentOrdinal⟩)] := by
      rw [show (SchedulePayment ts j amt d s).2.paymentById = emplaceA (processDuePayments ts s).paymentById (payName (processDuePayments ts s).nextPaymentOrdinal) ⟨j, amt, ts + d, false, false, (processDuePayments ts s).nextPaymentOrdinal⟩ from by simp [SchedulePayment, hL]]
      rw [emplaceA, hfresh]
    have hbal : (SchedulePayment ts j amt d s).2.accountBalances =
        (processDuePayments ts s).accountBalances := by
      simp [SchedulePayment, hL]
    have hct : (SchedulePayment ts j amt d s).2.accountCreationTime =
        (processDuePayments ts s).accountCreationTime := by
      simp [SchedulePayment, hL]
    have hmg : (SchedulePayment ts j amt d s).2.mergedInto =
        (processDuePayments ts s).mergedInto := by
      simp [SchedulePayment, hL]
    have hbe : (SchedulePayment ts j amt d s).2.balanceEvents =
        (processDuePayments ts s).balanceEvents := by
      simp [SchedulePayment, hL]
    have hordmem : ∀ x i, lookupA (SchedulePayment ts j amt d s).2.paymentById x = some i →
        lookupA (processDuePayments ts s).paymentById x = some i ∨
          (x = payName (processDuePayments ts s).nextPaymentOrdinal ∧
            i = ⟨j, amt, ts + d, false, false, (processDuePayments ts s).nextPaymentOrdinal⟩) := by
      intro x i hx
      rw [hpay] at hx
      rcases hold : lookupA (processDuePayments ts s).paymentById x with _ | i0
      · rw [lookupA_append_of_none _ _ _ hold] at hx
        by_cases hxp : x = payName (processDuePayments ts s).nextPaymentOrdinal
        · right
          refine ⟨hxp, ?_⟩
          have hxp2 : payName (processDuePayments ts s).nextPaymentOrdinal = x := hxp.symm
          rw [show lookupA [(payName (processDuePayments ts s).nextPaymentOrdinal, (⟨j, amt, ts + d, false, false, (processDuePayments ts s).nextPaymentOrdinal⟩ : PaymentInfo))] x = some ⟨j, amt, ts + d, false, false, (processDuePayments ts s).nextPaymentOrdinal⟩ from by simp [lookupA, hxp2]] at hx
          cases hx
          rfl
        · have hxp2 : ¬ payName (processDuePayments ts s).nextPaymentOrdinal = x :=
            fun he => hxp he.symm
          rw [show lookupA [(payName (processDuePayments ts s).nextPaymentOrdinal, (⟨j, amt, ts + d, false, false, (processDuePayments ts s).nextPaymentOrdinal⟩ : PaymentInfo))] x = none from by simp [lookupA, hxp2]] at hx
          cases hx
      · rw [lookupA_append_some _ _ _ _ hold] at hx
        cases hx
        exact Or.inl rfl
    refine ⟨?_, ?_, ?_, ?_, ?_, ?_, ?_, ?_⟩
    · rw [hq]
      exact sorted_enqueuePayment _ _ _ hb1.sorted
    · rw [hq]
      intro kids hk
      rcases mem_enqueuePayment _ _ _ kids hk with h1 | h1
      · rw [h1]
        omega
      · exact hb1.queueBound kids h1
    · rw [hq]
      intro kids hk x hx i hi
      rcases ids_enqueuePayment _ _ _ kids hk x hx with ⟨hxp, hkd⟩ | ⟨ids0, hmem, hx0⟩
      · rcases hordmem x i hi with h2 | ⟨_, h2⟩
        · rw [hxp] at h2
          rw [hfresh] at h2
          cases h2
        · rw [h2, hkd]
      · obtain ⟨i0, hi0⟩ := hb1.qLive (kids.1, ids0) hmem x hx0
        have hi0' : lookupA (SchedulePayment ts j amt d s).2.paymentById x = some i0 := by
          rw [hpay]
          exact lookupA_append_some _ _ _ _ hi0
        rw [hi0'] at hi
        cases hi
        exact hb1.keyDue (kids.1, ids0) hmem x hx0 _ hi0
    · rw [hq]
      intro kids hk x hx
      rcases ids_enqueuePayment _ _ _ kids hk x hx with ⟨hxp, _⟩ | ⟨ids0, hmem, hx0⟩
      · rw [hxp, hpay]
        refine ⟨⟨j, amt, ts + d, false, false, (processDuePayments ts s).nextPaymentOrdinal⟩, ?_⟩
        rw [lookupA_append_of_none _ _ _ hfresh]
        simp [lookupA]
      · obtain ⟨i0, hi0⟩ := hb1.qLive (kids.1, ids0) hmem x hx0
        rw [hpay]
        exact ⟨i0, lookupA_append_some _ _ _ _ hi0⟩
    · intro n hn
      rw [hord] at hn
      rw [hpay, lookupA_append_of_none _ _ _ (hb1.fresh n (by omega))]
      have hne : payName (processDuePayments ts s).nextPaymentOrdinal ≠ payName n := by
        intro he
        have h1 : (1 : Int) ≤ (processDuePayments ts s).nextPaymentOrdinal := hb1.ordPos
        have := payName_inj (by omega) (by omega) he
        omega
      simp [lookupA, hne]
    · rw [hord]
      have := hb1.ordPos
      omega
    · rw [hbal]
      exact hb1.balNodup
    · refine ShapeInv_transfer id (processDuePayments ts s) _ _ ts ts hb1.shape le_rfl ?_ ?_ ?_ ?_
      · rw [hct]
      · rw [hbal]
      · rw [hmg]
      · show (lookupA (SchedulePayment ts j amt d s).2.balanceEvents id).getD [] = _
        rw [hbe]
        rfl

theorem stepMerge_C1Inv (id a b : String) (ts : Int) (s : Bank)
    (Lm : List (String × List (Int × Option Int))) (T : Int)
    (hb : C1Inv id s ((lookupA Lm id).getD []) T) (hts : T ≤ ts) :
    C1Inv id (lifeStep (s, Lm) (Op.merge ts a b)).1
      ((lookupA (lifeStep (s, Lm) (Op.merge ts a b)).2 id).getD []) ts := by
  have hb1 := drain_C1Inv_at ts id s _ T hb hts
  by_cases hab : a = b
  · have h1 : (MergeAccounts ts a b s).1 = false := by simp [MergeAccounts, hab]
    rw [show lifeStep (s, Lm) (Op.merge ts a b) = ((MergeAccounts ts a b s).2, Lm) from by
      simp [lifeStep, h1]]
    rw [show (MergeAccounts ts a b s).2 = processDuePayments ts s from by
      simp [MergeAccounts, hab]]
    exact hb1
  rcases hA : lookupA (processDuePayments ts s).accountBalances a with _ | b1
  · have h1 : (MergeAccounts ts a b s).1 = false := by simp [MergeAccounts, hab, hA]
    rw [show lifeStep (s, Lm) (Op.merge ts a b) = ((MergeAccounts ts a b s).2, Lm) from by
      simp [lifeStep, h1]]
    rw [show (MergeAccounts ts a b s).2 = processDuePayments ts s from by
      simp [MergeAccounts, hab, hA]]
    exact hb1
  rcases hB : lookupA (processDuePayments ts s).accountBalances b with _ | b2
  · have h1 : (MergeAccounts ts a b s).1 = false := by simp [MergeAccounts, hab, hA, hB]
    rw [show lifeStep (s, Lm) (Op.merge ts a b) = ((MergeAccounts ts a b s).2, Lm) from by
      simp [lifeStep, h1]]
    rw [show (MergeAccounts ts a b s).2 = processDuePayments ts s from by
      simp [MergeAccounts, hab, hA, hB]]
    exact hb1
  -- success path
  have hba : b ≠ a := fun he => hab he.symm
  have h1 : (MergeAccounts ts a b s).1 = true := by simp [MergeAccounts, hab, hA, hB]
  have hstep : lifeStep (s, Lm) (Op.merge ts a b) =
      ((MergeAccounts ts a b s).2, setA Lm b (closeLast ((lookupA Lm b).getD []) ts)) := by
    simp [lifeStep, h1]
  rw [hstep]
  have hq : (MergeAccounts ts a b s).2.dueTimeToPaymentIds =
      (processDuePayments ts s).dueTimeToPaymentIds := by
    simp [MergeAccounts, hab, hA, hB, pushEvent]
  have hord : (MergeAccounts ts a b s).2.nextPaymentOrdinal =
      (processDuePayments ts s).nextPaymentOrdinal := by
    simp [MergeAccounts, hab, hA, hB, pushEvent]
  have hct : (MergeAccounts ts a b s).2.accountCreationTime =
      (processDuePayments ts s).accountCreationTime := by
    simp [MergeAccounts, hab, hA, hB, pushEvent]
  have hmg : (MergeAccounts ts a b s).2.mergedInto =
      setA (processDuePayments ts s).mergedInto b (a, ts) := by
    simp [MergeAccounts, hab, hA, hB, pushEvent]
  have hbal : (MergeAccounts ts a b s).2.accountBalances =
      eraseA (setA (setA (processDuePayments ts s).accountBalances a (b1 + b2)) b 0) b := by
    simp [MergeAccounts, hab, hA, hB, pushEvent]
  have hpay : (MergeAccounts ts a b s).2.paymentById =
      (processDuePayments ts s).paymentById.map (fun kv =>
        if kv.2.processed = false ∧ kv.2.canceled = false ∧ kv.2.accountId = b then
          (kv.1, { kv.2 with accountId := a }) else kv) := by
    simp [MergeAccounts, hab, hA, hB, pushEvent]
  have hbe : (MergeAccounts ts a b s).2.balanceEvents = (pushEvent (pushEvent { processDuePayments ts s with accountBalances := setA (processDuePayments ts s).accountBalances a (b1 + b2) } a ts b2) b ts (-b2)).balanceEvents := by
    simp [MergeAccounts, hab, hA, hB]
  have hfun : (fun kv : String × PaymentInfo =>
      if kv.2.processed = false ∧ kv.2.canceled = false ∧ kv.2.accountId = b then
        (kv.1, { kv.2 with accountId := a }) else kv) = (fun kv : String × PaymentInfo =>
      (kv.1, if kv.2.processed = false ∧ kv.2.canceled = false ∧ kv.2.accountId = b then
        { kv.2 with accountId := a } else kv.2)) := by
    funext kv
    by_cases hP : kv.2.processed = false ∧ kv.2.canceled = false ∧ kv.2.accountId = b <;>
      simp [hP]
  have hlook : ∀ x, lookupA (MergeAccounts ts a b s).2.paymentById x =
      (lookupA (processDuePayments ts s).paymentById x).map (fun i =>
        if i.processed = false ∧ i.canceled = false ∧ i.accountId = b then
          { i with accountId := a } else i) := by
    intro x
    rw [hpay, hfun]
    exact lookupA_map_values (processDuePayments ts s).paymentById
      (fun i : PaymentInfo =>
        if i.processed = false ∧ i.canceled = false ∧ i.accountId = b then
          { i with accountId := a } else i) x
  have hevgen : ∀ x : String, eventsOf (MergeAccounts ts a b s).2 x =
      (if x = b then eventsOf (processDuePayments ts s) x ++ [(ts, -b2)]
        else if x = a then eventsOf (processDuePayments ts s) x ++ [(ts, b2)]
        else eventsOf (processDuePayments ts s) x) := by
    intro x
    have hex : eventsOf (MergeAccounts ts a b s).2 x = eventsOf (pushEvent (pushEvent { processDuePayments ts s with accountBalances := setA (processDuePayments ts s).accountBalances a (b1 + b2) } a ts b2) b ts (-b2)) x := by
      show (lookupA (MergeAccounts ts a b s).2.balanceEvents x).getD [] = _
      rw [hbe]
      rfl
    rw [hex]
    by_cases hx1 : x = b
    · rw [hx1, eventsOf_pushEvent_self, eventsOf_pushEvent_ne _ _ _ _ _ hba]
      simp [hx1]
      rfl
    · rw [eventsOf_pushEvent_ne _ _ _ _ _ hx1]
      by_cases hx2 : x = a
      · rw [hx2, eventsOf_pushEvent_self]
        simp [hab]
        rfl
      · rw [eventsOf_pushEvent_ne _ _ _ _ _ hx2]
        simp [hx1, hx2]
        rfl
  have hkeysmid : (setA (setA (processDuePayments ts s).accountBalances a (b1 + b2)) b 0).map Prod.fst = (processDuePayments ts s).accountBalances.map Prod.fst := by
    rw [keys_setA_of_lookup _ _ _ _ (by rw [lookupA_setA_ne _ _ _ _ hba]; exact hB),
      keys_setA_of_lookup _ _ _ _ hA]
  have hnodup : ((MergeAccounts ts a b s).2.accountBalances.map Prod.fst).Nodup := by
    rw [hbal]
    exact (keys_eraseA_sublist _ _).nodup (hkeysmid ▸ hb1.balNodup)
  refine ⟨?_, ?_, ?_, ?_, ?_, ?_, hnodup, ?_⟩
  · rw [hq]
    exact hb1.sorted
  · rw [hq]
    exact hb1.queueBound
  · rw [hq]
    intro kids hk x hx i hi
    rw [hlook x] at hi
    rcases hold : lookupA (processDuePayments ts s).paymentById x with _ | i0
    · rw [hold] at hi
      cases hi
    · rw [hold] at hi
      have hdue : i.dueTimestamp = i0.dueTimestamp := by
        rcases (by simpa using hi : (if i0.processed = false ∧ i0.canceled = false ∧ i0.accountId = b then { i0 with accountId := a } else i0) = i) with h2
        by_cases hP : i0.processed = false ∧ i0.canceled = false ∧ i0.accountId = b
        · rw [if_pos hP] at h2
          rw [← h2]
        · rw [if_neg hP] at h2
          rw [← h2]
      rw [hdue]
      exact hb1.keyDue kids hk x hx i0 hold
  · rw [hq]
    intro kids hk x hx
    obtain ⟨i0, hi0⟩ := hb1.qLive kids hk x hx
    rw [hlook x, hi0]
    exact ⟨_, rfl⟩
  · intro n hn
    rw [hord] at hn
    rw [hlook (payName n), hb1.fresh n hn]
    rfl
  · rw [hord]
    exact hb1.ordPos
  · -- the lifetime shape
    rcases hx : lookupA (processDuePayments ts s).accountBalances id with _ | bid
    · have hia : id ≠ a := by
        intro he
        rw [he, hA] at hx
        cases hx
      have hib : id ≠ b := by
        intro he
        rw [he, hB] at hx
        cases hx
      have hL' : (lookupA (setA Lm b (closeLast ((lookupA Lm b).getD []) ts)) id).getD [] =
          (lookupA Lm id).getD [] := by
        rw [lookupA_setA_ne _ _ _ _ hib]
      rw [hL']
      refine ShapeInv_transfer id (processDuePayments ts s) _ _ ts ts hb1.shape le_rfl ?_ ?_ ?_ ?_
      · rw [hct]
      · rw [hbal, lookupA_eraseA_ne _ _ _ hib, lookupA_setA_ne _ _ _ _ hib,
          lookupA_setA_ne _ _ _ _ hia]
      · rw [hmg]
        exact lookupA_setA_ne _ _ _ _ hib
      · rw [hevgen id]
        simp [hib, hia]
    · obtain ⟨c, hLc, hctid, hmgid, hcle, hevb⟩ :=
        shape_open_of_some id (processDuePayments ts s) _ ts hb1.shape bid hx
      by_cases hib : id = b
      · subst hib
        have hL' : (lookupA (setA Lm id (closeLast ((lookupA Lm id).getD []) ts)) id).getD [] =
            [(c, some ts)] := by
          rw [lookupA_setA_self]
          show closeLast ((lookupA Lm id).getD []) ts = [(c, some ts)]
          rw [hLc]
          rfl
        rw [hL']
        refine Or.inr (Or.inr ⟨c, ts, a, rfl, ?_, ?_, ?_, hcle, le_refl ts, ?_⟩)
        · rw [hct]
          exact hctid
        · rw [hbal]
          exact lookupA_eraseA_self_of_nodup _ _ (hkeysmid ▸ hb1.balNodup)
        · rw [hmg]
          exact lookupA_setA_self _ _ _
        · rw [hevgen id]
          rw [if_pos rfl]
          intro e he
          rcases List.mem_append.mp he with h1 | h1
          · exact hevb e h1
          · have : e = (ts, -b2) := by simpa using h1
            rw [this]
            exact ⟨hcle, le_refl ts⟩
      · have hL' : (lookupA (setA Lm b (closeLast ((lookupA Lm b).getD []) ts)) id).getD [] =
            (lookupA Lm id).getD [] := by
          rw [lookupA_setA_ne _ _ _ _ hib]
        rw [hL']
        by_cases hia : id = a
        · subst hia
          refine Or.inr (Or.inl ⟨c, hLc, ?_, ?_, ?_, hcle, ?_⟩)
          · rw [hct]
            exact hctid
          · rw [hbal, lookupA_eraseA_ne _ _ _ hib, lookupA_setA_ne _ _ _ _ hib,
              lookupA_setA_self]
            exact ⟨b1 + b2, rfl⟩
          · rw [hmg, lookupA_setA_ne _ _ _ _ hib]
            exact hmgid
          · rw [hevgen id, if_neg hib, if_pos rfl]
            intro e he
            rcases List.mem_append.mp he with h1 | h1
            · exact hevb e h1
            · have : e = (ts, b2) := by simpa using h1
              rw [this]
              exact ⟨hcle, le_refl ts⟩
        · refine Or.inr (Or.inl ⟨c, hLc, ?_, ?_, ?_, hcle, ?_⟩)
          · rw [hct]
            exact hctid
          · rw [hbal, lookupA_eraseA_ne _ _ _ hib, lookupA_setA_ne _ _ _ _ hib,
              lookupA_setA_ne _ _ _ _ hia]
            exact ⟨bid, hx⟩
          · rw [hmg, lookupA_setA_ne _ _ _ _ hib]
            exact hmgid
          · rw [hevgen id, if_neg hib, if_neg hia]
            exact hevb

/-! ## Trace-level hypotheses and the fold invariant -/

/-- Operation timestamps are non-decreasing, starting at or above `t`. -/
def tsMono : Int → List Op → Prop
  | _, [] => True
  | t, op :: rest => t ≤ op.ts ∧ tsMono op.ts rest

instance tsMonoDec : ∀ (t : Int) (ops : List Op), Decidable (tsMono t ops)
  | _, [] => Decidable.isTrue trivial
  | t, op :: rest =>
    have : Decidable (tsMono op.ts rest) := tsMonoDec op.ts rest
    inferInstanceAs (Decidable (t ≤ op.ts ∧ tsMono op.ts rest))

/-- Scheduled delays are non-negative (the valid-usage condition of §4.1). -/
def Op.delayOk : Op → Prop
  | .schedule _ _ _ d => 0 ≤ d
  | _ => True

instance (op : Op) : Decidable op.delayOk := by
  cases op <;> (unfold Op.delayOk; infer_instance)

/-- Whether an operation is a `CreateAccount` call for the given id. -/
def Op.isCreateOf (id : String) : Op → Bool
  | .create _ i => i = id
  | _ => false

theorem closeLast_eq_nil (L : List (Int × Option Int)) (m : Int) :
    closeLast L m = [] ↔ L = [] := by
  cases L with
  | nil => simp [closeLast]
  | cons e rest =>
    cases rest with
    | nil =>
      obtain ⟨c, x⟩ := e
      simp [closeLast]
    | cons e2 r2 => simp [closeLast]

theorem lifeStep_fst (sl : Bank × List (String × List (Int × Option Int))) (op : Op) :
    (lifeStep sl op).1 = applyOp sl.1 op := by
  cases op with
  | create t j =>
    by_cases h : (CreateAccount t j sl.1).1 <;> simp [lifeStep, applyOp, h]
  | merge t x y =>
    by_cases h : (MergeAccounts t x y sl.1).1 <;> simp [lifeStep, applyOp, h]
  | deposit t j a => rfl
  | transfer t x y a => rfl
  | schedule t j a d => rfl
  | cancel t j pid => rfl
  | getBalance t j t0 => rfl

theorem foldl_lifeStep_fst : ∀ (ops : List Op)
    (sl : Bank × List (String × List (Int × Option Int))),
    (ops.foldl lifeStep sl).1 = runFrom sl.1 ops := by
  intro ops
  induction ops with
  | nil => intro sl; rfl
  | cons op rest ih =>
    intro sl
    show (rest.foldl lifeStep (lifeStep sl op)).1 = runFrom (applyOp sl.1 op) rest
    rw [ih (lifeStep sl op), lifeStep_fst]

/-- When `op` does not create `id`, the emptiness of `id`'s lifetime list is
unchanged by one trace step. -/
theorem lifeStep_L_empty (id : String) (sl : Bank × List (String × List (Int × Option Int)))
    (op : Op) (hop : op.isCreateOf id = false) :
    ((lookupA (lifeStep sl op).2 id).getD [] = [] ↔ (lookupA sl.2 id).getD [] = []) := by
  cases op with
  | create t j =>
    have hji : ¬ j = id := by simpa [Op.isCreateOf] using hop
    by_cases h : (CreateAccount t j sl.1).1
    · rw [show (lifeStep sl (Op.create t j)).2 =
          setA sl.2 j ((lookupA sl.2 j).getD [] ++ [(t, none)]) from by simp [lifeStep, h]]
      rw [lookupA_setA_ne _ _ _ _ (fun he => hji he.symm)]
    · rw [show (lifeStep sl (Op.create t j)).2 = sl.2 from by simp [lifeStep, h]]
  | merge t x y =>
    by_cases h : (MergeAccounts t x y sl.1).1
    · rw [show (lifeStep sl (Op.merge t x y)).2 =
          setA sl.2 y (closeLast ((lookupA sl.2 y).getD []) t) from by simp [lifeStep, h]]
      by_cases hy : y = id
      · rw [hy, lookupA_setA_self]
        show closeLast ((lookupA sl.2 id).getD []) t = [] ↔ _
        rw [closeLast_eq_nil]
      · rw [lookupA_setA_ne _ _ _ _ (fun he => hy he.symm)]
    · rw [show (lifeStep sl (Op.merge t x y)).2 = sl.2 from by simp [lifeStep, h]]
  | deposit t j a => exact Iff.rfl
  | transfer t x y a => exact Iff.rfl
  | schedule t j a d => exact Iff.rfl
  | cancel t j pid => exact Iff.rfl
  | getBalance t j t0 => exact Iff.rfl


theorem fold_C1Inv (id : String) : ∀ (ops : List Op) (s : Bank)
    (Lm : List (String × List (Int × Option Int))) (T : Int),
    C1Inv id s ((lookupA Lm id).getD []) T →
    tsMono T ops →
    (∀ op ∈ ops, op.delayOk) →
    ((ops.filter (Op.isCreateOf id)).length +
      (if (lookupA Lm id).getD [] = [] then 0 else 1) ≤ 1) →
    ∃ T', C1Inv id (ops.foldl lifeStep (s, Lm)).1
      ((lookupA (ops.foldl lifeStep (s, Lm)).2 id).getD []) T' := by
  intro ops
  induction ops with
  | nil =>
    intro s Lm T hb _ _ _
    exact ⟨T, hb⟩
  | cons op rest ih =>
    intro s Lm T hb hmono hdel honce
    obtain ⟨hT, hmono'⟩ := hmono
    have hdelop : op.delayOk := hdel op (List.mem_cons_self _ _)
    have hdel' : ∀ o ∈ rest, o.delayOk := fun o ho => hdel o (List.mem_cons_of_mem _ ho)
    show ∃ T', C1Inv id (rest.foldl lifeStep (lifeStep (s, Lm) op)).1
      ((lookupA (rest.foldl lifeStep (lifeStep (s, Lm) op)).2 id).getD []) T'
    by_cases hcr : op.isCreateOf id = true
    · obtain ⟨t, hop⟩ : ∃ t, op = Op.create t id := by
        cases op with
        | create t j =>
          have hji : j = id := by simpa [Op.isCreateOf] using hcr
          exact ⟨t, by rw [hji]⟩
        | deposit t j a => simp [Op.isCreateOf] at hcr
        | transfer t x y a => simp [Op.isCreateOf] at hcr
        | schedule t j a d => simp [Op.isCreateOf] at hcr
        | cancel t j p => simp [Op.isCreateOf] at hcr
        | merge t x y => simp [Op.isCreateOf] at hcr
        | getBalance t j t0 => simp [Op.isCreateOf] at hcr
      subst hop
      have hcount : ((Op.create t id :: rest).filter (Op.isCreateOf id)).length =
          (rest.filter (Op.isCreateOf id)).length + 1 := by
        rw [List.filter_cons, if_pos (by simp [Op.isCreateOf])]
        simp
      rw [hcount] at honce
      have hrest0 : (rest.filter (Op.isCreateOf id)).length = 0 := by omega
      have hLnil : (lookupA Lm id).getD [] = [] := by
        by_cases h : (lookupA Lm id).getD [] = []
        · exact h
        · rw [if_neg h] at honce
          omega
      have hstep := stepCreate_C1Inv id id t s Lm T hb hT (fun _ => hLnil)
      have hb1 := drain_C1Inv_at t id s ((lookupA Lm id).getD []) T hb hT
      have hbal1 : lookupA (processDuePayments t s).accountBalances id = none := by
        rcases hb1.shape with ⟨_, _, hbal1, _, _⟩ | ⟨c, hLc, _⟩ | ⟨c, m, p, hLc, _⟩
        · exact hbal1
        · rw [hLnil] at hLc
          cases hLc
        · rw [hLnil] at hLc
          cases hLc
      have hsucc : (CreateAccount t id s).1 = true := by
        simp [CreateAccount, hbal1]
      have hL' : (lookupA (lifeStep (s, Lm) (Op.create t id)).2 id).getD [] = [(t, none)] := by
        rw [show (lifeStep (s, Lm) (Op.create t id)).2 =
            setA Lm id ((lookupA Lm id).getD [] ++ [(t, none)]) from by simp [lifeStep, hsucc]]
        rw [lookupA_setA_self, hLnil]
        rfl
      refine ih (lifeStep (s, Lm) (Op.create t id)).1 (lifeStep (s, Lm) (Op.create t id)).2
        t hstep hmono' hdel' ?_
      rw [hL', hrest0]
      simp
    · have hcrf : op.isCreateOf id = false := by
        cases h : op.isCreateOf id
        · rfl
        · exact absurd h hcr
      have hcount : ((op :: rest).filter (Op.isCreateOf id)).length =
          (rest.filter (Op.isCreateOf id)).length := by
        rw [List.filter_cons, if_neg (by simp [hcrf])]
      rw [hcount] at honce
      have honce' : (rest.filter (Op.isCreateOf id)).length +
          (if (lookupA (lifeStep (s, Lm) op).2 id).getD [] = [] then 0 else 1) ≤ 1 := by
        by_cases hE : (lookupA Lm id).getD [] = []
        · rw [if_pos ((lifeStep_L_empty id (s, Lm) op hcrf).mpr hE)]
          rw [if_pos hE] at honce
          omega
        · have hE' : ¬ (lookupA (lifeStep (s, Lm) op).2 id).getD [] = [] := by
            intro h
            exact hE ((lifeStep_L_empty id (s, Lm) op hcrf).mp h)
          rw [if_neg hE']
          rw [if_neg hE] at honce
          omega
      have hstep : C1Inv id (lifeStep (s, Lm) op).1
          ((lookupA (lifeStep (s, Lm) op).2 id).getD []) op.ts := by
        cases op with
        | create t j =>
          have hji : ¬ j = id := by simpa [Op.isCreateOf] using hcrf
          exact stepCreate_C1Inv id j t s Lm T hb hT (fun he => absurd he hji)
        | deposit t j a => exact stepDeposit_C1Inv id j t a s Lm T hb hT
        | transfer t x y a => exact stepTransfer_C1Inv id x y t a s Lm T hb hT
        | schedule t j a d => exact stepSchedule_C1Inv id j t a d s Lm T hb hT hdelop
        | cancel t j p => exact stepCancel_C1Inv id j p t s Lm T hb hT
        | merge t x y => exact stepMerge_C1Inv id x y t s Lm T hb hT
        | getBalance t j t0 => exact stepGetBalance_C1Inv id j t t0 s Lm T hb hT
      exact ih (lifeStep (s, Lm) op).1 (lifeStep (s, Lm) op).2 op.ts hstep hmono' hdel' honce'

/-- On any state satisfying the invariant bundle, the implementation's
balance query evaluates exactly the spec-side lifetime-filtered answer. -/
theorem getBalanceIn_eq_specBalanceAt (id : String) (s : Bank)
    (L : List (Int × Option Int)) (T : Int) (hb : C1Inv id s L T) (t_at : Int) :
    getBalanceIn s id t_at = specBalanceAt L (eventsOf s id) t_at := by
  rcases hb.shape with ⟨hL, hct, _, _, hmg⟩ |
    ⟨c, hL, hct, _, hmg, _, hevb⟩ | ⟨c, m, p, hL, hct, _, hmg, hcm, _, hevb⟩
  · rw [hL]
    simp [getBalanceIn, hmg, hct, specBalanceAt, coveringLifetime]
  · rw [hL]
    have hfueq : (eventsOf s id).filter (fun e => c ≤ e.1) = eventsOf s id :=
      List.filter_eq_self.mpr (fun e he => by simpa using (hevb e he).1)
    by_cases hcov : c ≤ t_at
    · have hnlt : ¬ t_at < c := not_lt_of_le hcov
      simp [getBalanceIn, hmg, hct, hnlt, specBalanceAt, coveringLifetime, hcov, hfueq]
    · have hlt : t_at < c := lt_of_not_le hcov
      simp [getBalanceIn, hmg, hct, hlt, specBalanceAt, coveringLifetime, hcov]
  · rw [hL]
    have hfueq : (eventsOf s id).filter (fun e => c ≤ e.1) = eventsOf s id :=
      List.filter_eq_self.mpr (fun e he => by simpa using (hevb e he).1)
    by_cases hmlt : m < t_at
    · have hcov : c ≤ t_at := le_trans hcm (le_of_lt hmlt)
      simp [getBalanceIn, hmg, hmlt, specBalanceAt, coveringLifetime, hcov]
    · by_cases hcov : c ≤ t_at
      · have hnlt : ¬ t_at < c := not_lt_of_le hcov
        simp [getBalanceIn, hmg, hmlt, hct, hnlt, specBalanceAt, coveringLifetime, hcov, hfueq]
      · have hlt : t_at < c := lt_of_not_le hcov
        simp [getBalanceIn, hmg, hmlt, hct, hlt, specBalanceAt, coveringLifetime, hcov]

/-- Claim C1 (amended).  For traces with non-decreasing timestamps,
non-negative schedule delays, and at most one creation of the queried id
(no id recycling), `GetBalance(ts, id, t_at)` answers exactly the spec's
lifetime query: nil when no lifetime of `id` covers `t_at` (no creation at
or before `t_at`, or the covering lifetime was closed by a merge strictly
before `t_at`), and otherwise the sum of the deltas inside the covering
lifetime with event time `≤ t_at`.  The counterexample shows both
restrictions are necessary: with a recycled id the code ignores lifetime
boundaries (answering 0 in a gap where the spec requires nil), and with
non-monotone timestamps it sums deltas recorded outside the covering
lifetime. -/
theorem getBalance_matches_spec_lifetimes (ops : List Op) (T0 ts t_at : Int)
    (id : String) (hmono : tsMono T0 ops) (hdel : ∀ op ∈ ops, op.delayOk)
    (honce : (ops.filter (Op.isCreateOf id)).length ≤ 1) :
    (GetBalance ts id t_at (runOps ops)).1 =
      specBalanceAt ((lookupA (specLifetimes ops) id).getD [])
        (eventsOf (processDuePayments ts (runOps ops)) id) t_at := by
  have hinit : C1Inv id Bank.init
      ((lookupA ([] : List (String × List (Int × Option Int))) id).getD []) T0 := by
    refine ⟨?_, ?_, ?_, ?_, ?_, ?_, ?_, ?_⟩
    · simp [Bank.init]
    · intro kids hk
      simp [Bank.init] at hk
    · intro kids hk
      simp [Bank.init] at hk
    · intro kids hk
      simp [Bank.init] at hk
    · intro n _
      rfl
    · exact le_refl 1
    · simp [Bank.init]
    · exact Or.inl ⟨rfl, rfl, rfl, rfl, rfl⟩
  obtain ⟨T', hbf⟩ := fold_C1Inv id ops Bank.init [] T0 hinit hmono hdel (by simpa using honce)
  rw [foldl_lifeStep_fst ops (Bank.init, [])] at hbf
  have hbf2 : C1Inv id (runOps ops) ((lookupA (specLifetimes ops) id).getD []) T' := hbf
  have hb2 := drain_C1Inv ts id (runOps ops)
    ((lookupA (specLifetimes ops) id).getD []) T' hbf2
  show getBalanceIn (processDuePayments ts (runOps ops)) id t_at = _
  exact getBalanceIn_eq_specBalanceAt id (processDuePayments ts (runOps ops)) _ _ hb2 t_at

/-- A well-behaved trace for the C1 witness: monotone timestamps, one
creation per id, a scheduled payment drained by the merge's preamble. -/
def c1wtrace : List Op :=
  [Op.create 0 "a", Op.create 0 "b", Op.deposit 1 "b" 100,
   Op.schedule 2 "b" 30 3, Op.merge 7 "a" "b"]

theorem getBalance_matches_spec_lifetimes_witness :
    (GetBalance 9 "b" 4 (runOps c1wtrace)).1 =
      specBalanceAt ((lookupA (specLifetimes c1wtrace) "b").getD [])
        (eventsOf (processDuePayments 9 (runOps c1wtrace)) "b") 4 :=
  getBalance_matches_spec_lifetimes c1wtrace 0 9 4 "b" (by decide) (by decide) (by decide)

/-- The recycled-id trace refuting claim C1 as stated: `b` lives in
`[0, 5)`, is absorbed by `a` at 5, and is re-created at 10. -/
def c1trace : List Op :=
  [Op.create 0 "b", Op.create 0 "a", Op.deposit 1 "b" 100,
   Op.merge 5 "a" "b", Op.create 10 "b"]

/-- A non-monotone trace refuting the sum clause of claim C1: the deposit is
recorded at event time 5, before `b`'s only lifetime starts at 10. -/
def c1btrace : List Op :=
  [Op.create 10 "b", Op.deposit 5 "b" 50]

/-- Counterexample to claim C1 as stated.  After `c1trace`, no lifetime of
`b` covers `t_at = 7` (the first closed by the merge at 5 < 7, the second
starting at 10), so the claim requires nil — but the code answers `some 0`:
`GetBalance` keeps only the latest merge edge (erased by re-creation) and
the FIRST creation time, and sums deltas across all lifetimes.  After
`c1btrace` the lifetime covering `t_at = 12` starts at 10, so the claim's
in-lifetime sum is 0 — but the code answers `some 50`, including the delta
recorded at event time 5 outside the lifetime. -/
theorem getBalance_lifetime_filtering_refuted :
    ((lookupA (specLifetimes c1trace) "b").getD [] = [(0, some 5), (10, none)]) ∧
    (GetBalance 20 "b" 7 (runOps c1trace)).1 = some 0 ∧
    specBalanceAt ((lookupA (specLifetimes c1trace) "b").getD [])
      (eventsOf (processDuePayments 20 (runOps c1trace)) "b") 7 = none ∧
    (GetBalance 20 "b" 12 (runOps c1btrace)).1 = some 50 ∧
    specBalanceAt ((lookupA (specLifetimes c1btrace) "b").getD [])
      (eventsOf (processDuePayments 20 (runOps c1btrace)) "b") 12 = some 0 := by
  refine ⟨by decide, by decide, by decide, by decide, by decide⟩
